import Mathlib

/-!
Verification development for the static-data resolution engine of
cassiopeia (`cassiopeia/datastores/riotapi/staticdata.py`).

Python dictionaries are embedded as association lists with in-place
update (replace the value at an existing key, keeping its position;
append when the key is absent), which mirrors the insertion-order and
in-place-mutation semantics of CPython dicts under value semantics.
Python exceptions are embedded as `Except` errors; a raise inside a
generator terminates the generator, so the pull sequence of a
`get_many` generator is embedded as a list of per-element results that
ends at the first error.  Values are stratified by where they occur:
`FVal` for fields of an entity record, `TVal` for fields of a
list-response payload (whose `data` field holds the keyed records),
and `QVal` for query parameters.
-/

namespace Cassiopeia

/-- Keys of a Python dict as used by the payloads of this module:
either a string key or an integer key. -/
inductive PyKey where
  | kStr (s : String)
  | kInt (n : Int)
deriving DecidableEq, Repr

/-- Platform enumeration member, carrying the attributes the source
reads from it: `value` (for URL building), `region.value` and
`default_locale`. -/
structure Platform where
  value : String
  region : String
  default_locale : String
deriving DecidableEq, Repr

/-- Field values of an entity record (a champion, mastery, item, ...
dict): ints, strings, booleans, string sets (with explicit iteration
order) and string lists. -/
inductive FVal where
  | fInt (n : Int)
  | fStr (s : String)
  | fBool (b : Bool)
  | fSet (elems : List String)
  | fStrList (elems : List String)
deriving DecidableEq, Repr

/-- An entity record: a Python dict with string keys. -/
abbrev Rec := List (String × FVal)

/-- Top-level field values of a list-response payload: either a scalar
field (such as `version`, `region`, `locale`, `includedData`) or the
`data` mapping from id key to entity record. -/
inductive TVal where
  | tF (v : FVal)
  | tData (entries : List (PyKey × Rec))
deriving DecidableEq, Repr

/-- A list-response payload / list DTO: a Python dict with string
keys. -/
abbrev Payload := List (String × TVal)

/-- Query parameter values: ints, strings, booleans, string sets,
platform members, and integer lists (for `ids`). -/
inductive QVal where
  | qInt (n : Int)
  | qStr (s : String)
  | qBool (b : Bool)
  | qSet (elems : List String)
  | qPlatform (p : Platform)
  | qIntList (elems : List Int)
deriving DecidableEq, Repr

/-- A query: a Python dict with string keys. -/
abbrev Query := List (String × QVal)

section AList

variable {κ : Type} {α : Type} [DecidableEq κ]

/-- Lookup in a Python-dict-like association list. -/
def aget : List (κ × α) → κ → Option α
  | [], _ => none
  | (k, v) :: rest, k' => if k = k' then some v else aget rest k'

/-- Assignment `d[k] = v`: replace in place if the key exists,
otherwise append at the end (CPython dict insertion order). -/
def aput : List (κ × α) → κ → α → List (κ × α)
  | [], k, v => [(k, v)]
  | (k0, v0) :: rest, k, v =>
      if k0 = k then (k0, v) :: rest else (k0, v0) :: aput rest k v

/-- Deletion `d.pop(k)` on a dict known to hold `k` at most once. -/
def apop : List (κ × α) → κ → List (κ × α)
  | [], _ => []
  | (k0, v0) :: rest, k =>
      if k0 = k then rest else (k0, v0) :: apop rest k

theorem aget_aput_self (l : List (κ × α)) (k : κ) (v : α) :
    aget (aput l k v) k = some v := by
  induction l with
  | nil => simp [aget, aput]
  | cons kv rest ih =>
      obtain ⟨k0, v0⟩ := kv
      by_cases h : k0 = k
      · simp [aget, aput, h]
      · simp [aget, aput, h, ih]

theorem aget_aput_ne (l : List (κ × α)) (k k' : κ) (v : α) (h : k ≠ k') :
    aget (aput l k v) k' = aget l k' := by
  induction l with
  | nil => simp [aget, aput, h]
  | cons kv rest ih =>
      obtain ⟨k0, v0⟩ := kv
      by_cases h0 : k0 = k
      · subst h0
        simp [aget, aput, h]
      · simp [aget, aput, h0, ih]

theorem aput_unchanged (l : List (κ × α)) (k : κ) (v : α)
    (h : aget l k = some v) : aput l k v = l := by
  induction l with
  | nil => simp [aget] at h
  | cons kv rest ih =>
      obtain ⟨k0, v0⟩ := kv
      by_cases h0 : k0 = k
      · subst h0
        simp [aget] at h
        simp [aput, h]
      · simp [aget, h0] at h
        simp [aput, h0, ih h]

theorem aget_apop_ne (l : List (κ × α)) (k k' : κ) (h : k ≠ k') :
    aget (apop l k) k' = aget l k' := by
  induction l with
  | nil => simp [apop]
  | cons kv rest ih =>
      obtain ⟨k0, v0⟩ := kv
      by_cases h0 : k0 = k
      · subst h0
        simp [apop, aget, h]
      · simp [apop, aget, h0, ih]

end AList

/-!
## Query fingerprints (`StaticDataAPI.calculate_hash`)
-/

/-- Lexicographic code-point comparison of character lists: the order
Python uses on strings.  (Lean's built-in `String` order is the same
relation but its decision procedure does not reduce in the kernel, so
the comparison is spelled out.) -/
def charListLe : List Char → List Char → Bool
  | [], _ => true
  | _ :: _, [] => false
  | a :: as, b :: bs =>
      if a < b then true
      else if b < a then false
      else charListLe as bs

theorem charListLe_total : ∀ (a b : List Char),
    charListLe a b = true ∨ charListLe b a = true
  | [], _ => .inl rfl
  | _ :: _, [] => .inr rfl
  | a :: as, b :: bs => by
      by_cases h1 : a < b
      · left
        simp [charListLe, if_pos h1]
      · by_cases h2 : b < a
        · right
          simp [charListLe, if_pos h2]
        · have hab : a = b := le_antisymm (le_of_not_lt h2) (le_of_not_lt h1)
          subst hab
          rcases charListLe_total as bs with h | h
          · left
            simp [charListLe, lt_irrefl, h]
          · right
            simp [charListLe, lt_irrefl, h]

theorem charListLe_trans : ∀ (a b c : List Char),
    charListLe a b = true → charListLe b c = true → charListLe a c = true
  | [], _, _, _, _ => rfl
  | _ :: _, [], _, hab, _ => by simp [charListLe] at hab
  | _ :: _, _ :: _, [], _, hbc => by simp [charListLe] at hbc
  | x :: xs, y :: ys, z :: zs, hab, hbc => by
      simp only [charListLe] at hab hbc ⊢
      by_cases hxy : x < y
      · by_cases hyz : y < z
        · rw [if_pos (lt_trans hxy hyz)]
        · by_cases hzy : z < y
          · rw [if_neg hyz, if_pos hzy] at hbc
            exact absurd hbc (by simp)
          · have hyzeq : y = z := le_antisymm (le_of_not_lt hzy) (le_of_not_lt hyz)
            subst hyzeq
            rw [if_pos hxy]
      · by_cases hyx : y < x
        · rw [if_neg hxy, if_pos hyx] at hab
          exact absurd hab (by simp)
        · have hxyeq : x = y := le_antisymm (le_of_not_lt hyx) (le_of_not_lt hxy)
          subst hxyeq
          by_cases hxz : x < z
          · rw [if_pos hxz]
          · by_cases hzx : z < x
            · rw [if_neg hxz, if_pos hzx] at hbc
              exact absurd hbc (by simp)
            · rw [if_neg hxz, if_neg hzx] at hbc ⊢
              rw [if_neg hxy, if_neg hxy] at hab
              exact charListLe_trans xs ys zs hab hbc

theorem charListLe_antisymm : ∀ (a b : List Char),
    charListLe a b = true → charListLe b a = true → a = b
  | [], [], _, _ => rfl
  | [], _ :: _, _, hba => by simp [charListLe] at hba
  | _ :: _, [], hab, _ => by simp [charListLe] at hab
  | x :: xs, y :: ys, hab, hba => by
      by_cases hxy : x < y
      · rw [charListLe, if_neg (lt_asymm hxy), if_pos hxy] at hba
        exact absurd hba (by simp)
      · by_cases hyx : y < x
        · rw [charListLe, if_neg (lt_asymm hyx), if_pos hyx] at hab
          exact absurd hab (by simp)
        · have hxyeq : x = y := le_antisymm (le_of_not_lt hyx) (le_of_not_lt hxy)
          subst hxyeq
          rw [charListLe, if_neg hxy, if_neg hxy] at hab hba
          rw [charListLe_antisymm xs ys hab hba]

/-- Python's `<=` on strings, as an executable Boolean. -/
def strLeB (a b : String) : Bool := charListLe a.data b.data

/-- Python's `<=` on strings, as a relation. -/
def strLe (a b : String) : Prop := strLeB a b = true

instance : DecidableRel strLe :=
  fun a b => inferInstanceAs (Decidable (strLeB a b = true))

instance : IsTotal String strLe :=
  ⟨fun a b => charListLe_total a.data b.data⟩

instance : IsTrans String strLe :=
  ⟨fun a b c h1 h2 => charListLe_trans a.data b.data c.data h1 h2⟩

theorem strLe_antisymm (a b : String) (h1 : strLe a b) (h2 : strLe b a) :
    a = b := by
  have hd : a.data = b.data := charListLe_antisymm a.data b.data h1 h2
  cases a with
  | mk d1 =>
      cases b with
      | mk d2 => exact congrArg String.mk (by simpa using hd)

instance : IsAntisymm String strLe :=
  ⟨strLe_antisymm⟩

/-- Modelled from the spec: `_hash_included_data` (imported from the
`uniquekeys` module, which is not part of the provided source) reduces
a set-valued parameter to a stable hash that is invariant under the
set's iteration order.  It is embedded as the canonical (deduplicated,
sorted) element list of the set. -/
def hash_included_data (s : List String) : List String :=
  List.insertionSort strLe s.dedup

/-- Per-value step of `calculate_hash`: a set value is replaced by
`_hash_included_data` of it, every other value is kept. -/
def hashValue : QVal → QVal
  | .qSet s => .qSet (hash_included_data s)
  | v => v

/-- Comparison used by `sorted(query.items())`: Python sorts the
key/value tuples lexicographically, and since dict keys are unique the
order is decided by the keys alone. -/
def keyLe (a b : String × QVal) : Prop := strLe a.1 b.1

instance : DecidableRel keyLe :=
  fun a b => inferInstanceAs (Decidable (strLe a.1 b.1))

instance : IsTotal (String × QVal) keyLe :=
  ⟨fun a b => charListLe_total a.1.data b.1.data⟩

instance : IsTrans (String × QVal) keyLe :=
  ⟨fun a b c h1 h2 => charListLe_trans a.1.data b.1.data c.1.data h1 h2⟩

/-- `StaticDataAPI.calculate_hash`: the values of the query in sorted
key order, with set values replaced by their stable hash.  The Python
tuple is embedded as a list. -/
def calculate_hash (q : Query) : List QVal :=
  (List.insertionSort keyLe q).map (fun kv => hashValue kv.2)

/-- Equality of query values up to set-iteration order: set values may
be permutations of each other, every other value must be equal. -/
def ValEquiv (v w : QVal) : Prop :=
  match v, w with
  | .qSet s1, .qSet s2 => s1.Perm s2
  | v1, v2 => v1 = v2

/-- Equality of query entries up to set-iteration order of the
value. -/
def EntryEquiv (a b : String × QVal) : Prop :=
  a.1 = b.1 ∧ ValEquiv a.2 b.2

theorem hashValue_of_valEquiv {v w : QVal} (h : ValEquiv v w) :
    hashValue v = hashValue w := by
  cases v <;> cases w <;> simp only [ValEquiv] at h <;>
    first
      | (simp only [h])
      | (exact h ▸ rfl)
      | (simp only [hashValue, hash_included_data]
         have hd : (List.dedup _).Perm (List.dedup _) := h.dedup
         exact congrArg QVal.qSet (List.eq_of_perm_of_sorted
           (((List.perm_insertionSort _ _).trans hd).trans
             (List.perm_insertionSort _ _).symm)
           (List.sorted_insertionSort _ _) (List.sorted_insertionSort _ _)))

/-- Canonicalization of one query entry, keeping the key. -/
def canonEntry (kv : String × QVal) : String × QVal :=
  (kv.1, hashValue kv.2)

theorem orderedInsert_canon (a : String × QVal) (l : List (String × QVal)) :
    List.orderedInsert keyLe (canonEntry a) (l.map canonEntry)
      = (List.orderedInsert keyLe a l).map canonEntry := by
  induction l with
  | nil => rfl
  | cons b t ih =>
      simp only [List.map_cons, List.orderedInsert]
      by_cases h : keyLe a b
      · have h' : keyLe (canonEntry a) (canonEntry b) := h
        rw [if_pos h', if_pos h, List.map_cons, List.map_cons]
      · have h' : ¬ keyLe (canonEntry a) (canonEntry b) := h
        rw [if_neg h', if_neg h, List.map_cons, ih]

theorem insertionSort_canon (l : List (String × QVal)) :
    List.insertionSort keyLe (l.map canonEntry)
      = (List.insertionSort keyLe l).map canonEntry := by
  induction l with
  | nil => rfl
  | cons a t ih =>
      simp only [List.map_cons, List.insertionSort, ih, orderedInsert_canon]

theorem eq_of_perm_sorted_nodupkeys :
    ∀ (l1 l2 : List (String × QVal)), l1.Perm l2 → l1.Sorted keyLe →
      l2.Sorted keyLe → (l1.map Prod.fst).Nodup → l1 = l2
  | [], l2, hp, _, _, _ => (hp.symm.eq_nil).symm
  | a :: t1, [], hp, _, _, _ => absurd hp.eq_nil (by simp)
  | a :: t1, b :: t2, hp, hs1, hs2, hnd => by
      have hab : a = b := by
        have ha2 : a ∈ b :: t2 := hp.subset (List.mem_cons_self a t1)
        rcases List.mem_cons.mp ha2 with h | ha2
        · exact h
        · have hb1 : b ∈ a :: t1 := hp.symm.subset (List.mem_cons_self b t2)
          rcases List.mem_cons.mp hb1 with h | hb1
          · exact h.symm
          · exfalso
            have h1 : keyLe a b := List.rel_of_sorted_cons hs1 b hb1
            have h2 : keyLe b a := List.rel_of_sorted_cons hs2 a ha2
            have hkey : a.1 = b.1 := strLe_antisymm _ _ h1 h2
            have : a.1 ∉ t1.map Prod.fst := (List.nodup_cons.mp (by simpa using hnd)).1
            exact this (hkey ▸ List.mem_map_of_mem Prod.fst hb1)
      subst hab
      have ht : t1 = t2 :=
        eq_of_perm_sorted_nodupkeys t1 t2 hp.cons_inv
          (List.sorted_cons.mp hs1).2 (List.sorted_cons.mp hs2).2
          (List.nodup_cons.mp (by simpa using hnd)).2
      rw [ht]

/-- C3: `calculate_hash` produces the same fingerprint for two queries
containing the same key/value pairs when they differ only in key
insertion order (`qm` is the reordering of `q1`) and/or in the
iteration order of set values (`qm` is entrywise `EntryEquiv` to
`q2`); the fingerprint is deterministic because `calculate_hash` is a
pure function.  The set hashing is modelled from the spec. -/
theorem calculate_hash_order_invariant (q1 q2 qm : Query)
    (hperm : q1.Perm qm) (hequiv : List.Forall₂ EntryEquiv qm q2)
    (hnd : (q1.map Prod.fst).Nodup) :
    calculate_hash q1 = calculate_hash q2 := by
  have hcanonAll : ∀ (l1 l2 : Query), List.Forall₂ EntryEquiv l1 l2 →
      l1.map canonEntry = l2.map canonEntry := by
    intro l1 l2 hf
    induction hf with
    | nil => rfl
    | cons h _ ih =>
        simp only [List.map_cons, ih, canonEntry, h.1,
          hashValue_of_valEquiv h.2]
  have hcanon : qm.map canonEntry = q2.map canonEntry := hcanonAll _ _ hequiv
  have hfst : ∀ l : Query, (l.map canonEntry).map Prod.fst = l.map Prod.fst := by
    intro l
    simp [List.map_map, canonEntry, Function.comp]
  have hpc : (q1.map canonEntry).Perm (q2.map canonEntry) :=
    (hperm.map canonEntry).trans (hcanon ▸ List.Perm.refl _)
  have hsorteq : List.insertionSort keyLe (q1.map canonEntry)
      = List.insertionSort keyLe (q2.map canonEntry) := by
    apply eq_of_perm_sorted_nodupkeys
    · exact (List.perm_insertionSort _ _).trans
        (hpc.trans (List.perm_insertionSort _ _).symm)
    · exact List.sorted_insertionSort _ _
    · exact List.sorted_insertionSort _ _
    · have : ((List.insertionSort keyLe (q1.map canonEntry)).map Prod.fst).Perm
          (q1.map Prod.fst) := by
        have := (List.perm_insertionSort keyLe (q1.map canonEntry)).map Prod.fst
        rwa [hfst q1] at this
      exact this.nodup_iff.mpr hnd
  have hch : ∀ l : Query, calculate_hash l
      = (List.insertionSort keyLe (l.map canonEntry)).map Prod.snd := by
    intro l
    rw [insertionSort_canon, calculate_hash, List.map_map]
    rfl
  rw [hch q1, hch q2, hsorteq]

/-- Example platform member used by concrete scenarios. -/
def platNA : Platform := { value := "NA1", region := "NA", default_locale := "en_US" }

/-- Witness for C3: two concrete queries with different key insertion
order and different set iteration order receive the same
fingerprint. -/
theorem calculate_hash_order_invariant_witness :
    calculate_hash
        [("platform", QVal.qPlatform platNA),
         ("includedData", QVal.qSet ["all", "image"])]
      = calculate_hash
        [("includedData", QVal.qSet ["image", "all"]),
         ("platform", QVal.qPlatform platNA)] :=
  calculate_hash_order_invariant _ _
    [("includedData", QVal.qSet ["all", "image"]),
     ("platform", QVal.qPlatform platNA)]
    (by decide)
    (List.Forall₂.cons ⟨rfl, by show List.Perm _ _; decide⟩
      (List.Forall₂.cons ⟨rfl, by show _ = _; rfl⟩ List.Forall₂.nil))
    (by decide)

/-!
## Errors, state, transport
-/

deriving instance DecidableEq for Except

/-- Errors surfaced by the engine: `InvalidQuery` (datapipelines
`QueryValidationError`), `NotFound` (`NotFoundError`, also the
translation of the transport's `APINotFoundError`), and the uncaught
Python exceptions `KeyError` / `TypeError`-`AttributeError` that a
body can raise on a malformed or incomplete dict. -/
inductive Err where
  | invalidQuery
  | notFound
  | keyError
  | typeError
deriving DecidableEq, Repr

/-- State of a `StaticDataAPI` instance: the per-list-type caches
(`self._cache`, keyed by query fingerprint) and a counter of
transport invocations (`self._get` calls). -/
structure ApiState where
  championListCache : List (List QVal × Payload)
  masteryListCache : List (List QVal × Payload)
  mapListCache : List (List QVal × Payload)
  itemListCache : List (List QVal × Payload)
  spellListCache : List (List QVal × Payload)
  fetchCount : Nat
deriving DecidableEq

/-- Record one transport invocation. -/
def ApiState.bump (st : ApiState) : ApiState :=
  { st with fetchCount := st.fetchCount + 1 }

/-- The transport collaborator for list endpoints: given a URL it
returns the parsed payload, or fails (`APINotFoundError`). -/
abbrev Transport := String → Except Unit Payload

/-- The transport collaborator for single-item endpoints, which
return one entity record. -/
abbrev RecTransport := String → Except Unit Rec

/-!
## Query validation

The validator engine lives in the external `datapipelines` package;
its semantics are modelled from the spec, and each validator below
instantiates it with the schema declared in the source.
-/

def qIsInt : QVal → Bool
  | .qInt _ => true
  | _ => false

def qIsStr : QVal → Bool
  | .qStr _ => true
  | _ => false

def qIsBool : QVal → Bool
  | .qBool _ => true
  | _ => false

def qIsSet : QVal → Bool
  | .qSet _ => true
  | _ => false

def qIsIntList : QVal → Bool
  | .qIntList _ => true
  | _ => false

/-- Modelled from the spec: the `has(k).as_(ty)` requirement — the
field must be present with the right type. -/
def checkHas (q : Query) (k : String) (ty : QVal → Bool) : Except Err Unit :=
  match aget q k with
  | some v => if ty v then .ok () else .error .invalidQuery
  | none => .error .invalidQuery

/-- Modelled from the spec: the `can_have(k)` declaration — when the
field is present it must have the right type; when it is absent and a
default is declared, the query is mutated to hold the default. -/
def fillCanHave (q : Query) (k : String) (ty : QVal → Bool)
    (dflt : Option QVal) : Except Err Query :=
  match aget q k with
  | some v => if ty v then .ok q else .error .invalidQuery
  | none =>
      match dflt with
      | some d => .ok (aput q k d)
      | none => .ok q

/-- Modelled from the spec: the `has("id").as_(int).or_("name").as_(str)`
group — exactly one of the two alternative identity keys must be
present with its declared type; both-present or both-absent is a
validation failure. -/
def checkIdOrName (q : Query) : Except Err Unit :=
  match aget q "id", aget q "name" with
  | some v, none => if qIsInt v then .ok () else .error .invalidQuery
  | none, some v => if qIsStr v then .ok () else .error .invalidQuery
  | _, _ => .error .invalidQuery

/-- Modelled from the spec: the `has("platform").as_(Platform)`
requirement, returning the platform member. -/
def getPlatformV (q : Query) : Except Err Platform :=
  match aget q "platform" with
  | some (.qPlatform p) => .ok p
  | some _ => .error .invalidQuery
  | none => .error .invalidQuery

/-- Modelled from the spec: shared schema of the single-entity get
validators (`_validate_get_champion_query` and its five siblings):
id-or-name, platform, optional version defaulting to the realm's
version (the `_get_default_version` pipeline callback is modelled as
the `realmV` argument), optional locale defaulting to the platform's
default locale, and — except for map — optional includedData
defaulting to the one-element set `{"all"}`. -/
def validate_single_entity_query (realmV : String) (withIncl : Bool)
    (q : Query) : Except Err Query :=
  match checkIdOrName q with
  | .error e => .error e
  | .ok _ =>
      match getPlatformV q with
      | .error e => .error e
      | .ok p =>
          match fillCanHave q "version" qIsStr (some (.qStr realmV)) with
          | .error e => .error e
          | .ok q1 =>
              match fillCanHave q1 "locale" qIsStr (some (.qStr p.default_locale)) with
              | .error e => .error e
              | .ok q2 =>
                  if withIncl then
                    fillCanHave q2 "includedData" qIsSet (some (.qSet ["all"]))
                  else
                    .ok q2

/-- `_validate_get_champion_query`. -/
def validate_get_champion_query (realmV : String) (q : Query) : Except Err Query :=
  validate_single_entity_query realmV true q

/-- `_validate_get_mastery_query`. -/
def validate_get_mastery_query (realmV : String) (q : Query) : Except Err Query :=
  validate_single_entity_query realmV true q

/-- `_validate_get_rune_query`. -/
def validate_get_rune_query (realmV : String) (q : Query) : Except Err Query :=
  validate_single_entity_query realmV true q

/-- `_validate_get_item_query`. -/
def validate_get_item_query (realmV : String) (q : Query) : Except Err Query :=
  validate_single_entity_query realmV true q

/-- `_validate_get_summoner_spell_query`. -/
def validate_get_summoner_spell_query (realmV : String) (q : Query) : Except Err Query :=
  validate_single_entity_query realmV true q

/-- `_validate_get_map_query` (no includedData field). -/
def validate_get_map_query (realmV : String) (q : Query) : Except Err Query :=
  validate_single_entity_query realmV false q

/-- `_validate_get_champion_list_query`: platform required; version
optional (string, no default); locale defaulting to the platform's
default locale; includedData defaulting to `{"all"}`; dataById
defaulting to `False`. -/
def validate_get_champion_list_query (q : Query) : Except Err Query :=
  match getPlatformV q with
  | .error e => .error e
  | .ok p =>
      match fillCanHave q "version" qIsStr none with
      | .error e => .error e
      | .ok q1 =>
          match fillCanHave q1 "locale" qIsStr (some (.qStr p.default_locale)) with
          | .error e => .error e
          | .ok q2 =>
              match fillCanHave q2 "includedData" qIsSet (some (.qSet ["all"])) with
              | .error e => .error e
              | .ok q3 => fillCanHave q3 "dataById" qIsBool (some (.qBool false))

/-- `_validate_get_mastery_list_query`: like the champion list schema
but without dataById. -/
def validate_get_mastery_list_query (q : Query) : Except Err Query :=
  match getPlatformV q with
  | .error e => .error e
  | .ok p =>
      match fillCanHave q "version" qIsStr none with
      | .error e => .error e
      | .ok q1 =>
          match fillCanHave q1 "locale" qIsStr (some (.qStr p.default_locale)) with
          | .error e => .error e
          | .ok q2 => fillCanHave q2 "includedData" qIsSet (some (.qSet ["all"]))

/-- `_validate_get_map_list_query`: same schema as the mastery list
validator. -/
def validate_get_map_list_query (q : Query) : Except Err Query :=
  validate_get_mastery_list_query q

/-- Shared schema of `_validate_get_many_champion_query`,
`_validate_get_many_mastery_query`, `_validate_get_many_rune_query`,
`_validate_get_many_item_query` and
`_validate_get_many_summoner_spell_query`: ids required (an iterable,
here of ints), platform required, version optional string, locale
defaulting, includedData defaulting. -/
def validate_get_many_entity_query (q : Query) : Except Err Query :=
  match checkHas q "ids" qIsIntList with
  | .error e => .error e
  | .ok _ =>
      match getPlatformV q with
      | .error e => .error e
      | .ok p =>
          match fillCanHave q "version" qIsStr none with
          | .error e => .error e
          | .ok q1 =>
              match fillCanHave q1 "locale" qIsStr (some (.qStr p.default_locale)) with
              | .error e => .error e
              | .ok q2 => fillCanHave q2 "includedData" qIsSet (some (.qSet ["all"]))

/-!
## Reads and conversions used by the operation bodies
-/

/-- Read `query[k]` in an operation body: raises `KeyError` when the
key is absent. -/
def qread (q : Query) (k : String) : Except Err QVal :=
  match aget q k with
  | some v => .ok v
  | none => .error .keyError

/-- Read `payload[k]`: raises `KeyError` when absent. -/
def pread (p : Payload) (k : String) : Except Err TVal :=
  match aget p k with
  | some v => .ok v
  | none => .error .keyError

/-- Store a query parameter value into a record field.  The stratified
value embedding makes this partial; every value the source actually
stores converts. -/
def qvalToF : QVal → Except Err FVal
  | .qInt n => .ok (.fInt n)
  | .qStr s => .ok (.fStr s)
  | .qBool b => .ok (.fBool b)
  | .qSet s => .ok (.fSet s)
  | _ => .error .typeError

/-- Store a payload top-level value into a record field. -/
def tvalToF : TVal → Except Err FVal
  | .tF v => .ok v
  | .tData _ => .error .typeError

/-- Store a query parameter value into a payload top-level field. -/
def qvalToT (v : QVal) : Except Err TVal :=
  (qvalToF v).map .tF

/-!
## Champion list (`StaticDataAPI.get_champion_list`)
-/

/-- URL of the champions list endpoint. -/
def champion_list_url (p : Platform) : String :=
  "https://" ++ p.value.toLower ++ ".api.riotgames.com/lol/static-data/v3/champions"

/-- Per-record contextual stamping inside a list response: overwrite
`region`, `version`, `locale`, `includedData`. -/
def stampRec (region : String) (ver loc inc : FVal) (r : Rec) : Rec :=
  aput (aput (aput (aput r "region" (.fStr region)) "version" ver) "locale" loc)
    "includedData" inc

/-- Lines 186-194 of the source: stamp the fetched champions payload
with `region`, `locale`, `includedData` from the query, then stamp
every record of `data["data"]` with `region`, `query["version"]`
(a `KeyError` when the optional version was not supplied and the data
mapping is non-empty), `locale` and `includedData`. -/
def build_champion_list (q : Query) (p : Platform) (payload : Payload) :
    Except Err Payload :=
  match aget q "locale", aget q "includedData" with
  | some loc, some inc =>
      match qvalToF loc, qvalToF inc with
      | .ok locF, .ok incF =>
          let d1 := aput (aput (aput payload "region" (.tF (.fStr p.region)))
            "locale" (.tF locF)) "includedData" (.tF incF)
          match aget d1 "data" with
          | none => .error .keyError
          | some (.tF _) => .error .typeError
          | some (.tData entries) =>
              match entries with
              | [] => .ok d1
              | _ :: _ =>
                  match aget q "version" with
                  | none => .error .keyError
                  | some ver =>
                      match qvalToF ver with
                      | .error e => .error e
                      | .ok verF =>
                          .ok (aput d1 "data" (.tData (entries.map
                            (fun kv => (kv.1, stampRec p.region verF locF incF kv.2)))))
      | _, _ => .error .typeError
  | _, _ => .error .keyError

/-- `StaticDataAPI.get_champion_list`: validate, compute the
fingerprint, serve from the per-type cache on a hit; otherwise fetch
through the transport, stamp and normalize, store under the
fingerprint and return. -/
def get_champion_list (tr : Transport) (st : ApiState) (q0 : Query) :
    Except Err Payload × ApiState :=
  match validate_get_champion_list_query q0 with
  | .error e => (.error e, st)
  | .ok q =>
      let ahash := calculate_hash q
      match aget st.championListCache ahash with
      | some rec => (.ok rec, st)
      | none =>
          match getPlatformV q with
          | .error e => (.error e, st)
          | .ok p =>
              let st1 := st.bump
              match tr (champion_list_url p) with
              | .error _ => (.error .notFound, st1)
              | .ok payload =>
                  match build_champion_list q p payload with
                  | .error e => (.error e, st1)
                  | .ok rec =>
                      (.ok rec,
                        { st1 with championListCache := aput st1.championListCache ahash rec })

theorem get_champion_list_cached (tr : Transport) (st0 st1 : ApiState)
    (q v : Query) (r : Payload)
    (hv : validate_get_champion_list_query q = .ok v)
    (h : get_champion_list tr st0 q = (.ok r, st1)) :
    aget st1.championListCache (calculate_hash v) = some r := by
  simp only [get_champion_list, hv] at h
  cases hhit : aget st0.championListCache (calculate_hash v) with
  | some rec =>
      simp only [hhit, Prod.mk.injEq, Except.ok.injEq] at h
      obtain ⟨h1, h2⟩ := h
      subst h1
      subst h2
      exact hhit
  | none =>
      simp only [hhit] at h
      cases hp : getPlatformV v with
      | error e => simp [hp] at h
      | ok p =>
          simp only [hp] at h
          cases htr : tr (champion_list_url p) with
          | error e => simp [htr] at h
          | ok payload =>
              simp only [htr] at h
              cases hb : build_champion_list v p payload with
              | error e => simp [hb] at h
              | ok rec =>
                  simp only [hb, Prod.mk.injEq, Except.ok.injEq] at h
                  obtain ⟨h1, h2⟩ := h
                  subst h1
                  subst h2
                  exact aget_aput_self _ _ _

/-- C1: when two champion-list queries validate to fingerprint-equal
queries, the second `get_champion_list` call returns exactly the
record the first call stored in the cache, leaves the state untouched,
and the transport has been invoked only once in total. -/
theorem get_champion_list_cache_hit (tr : Transport) (st0 st1 : ApiState)
    (q1 q2 v1 v2 : Query) (r : Payload)
    (hv1 : validate_get_champion_list_query q1 = .ok v1)
    (hv2 : validate_get_champion_list_query q2 = .ok v2)
    (hfp : calculate_hash v1 = calculate_hash v2)
    (hmiss : aget st0.championListCache (calculate_hash v1) = none)
    (h1 : get_champion_list tr st0 q1 = (.ok r, st1)) :
    get_champion_list tr st1 q2 = (.ok r, st1) ∧
      st1.fetchCount = st0.fetchCount + 1 := by
  have hcached : aget st1.championListCache (calculate_hash v2) = some r := by
    rw [← hfp]
    exact get_champion_list_cached tr st0 st1 q1 v1 r hv1 h1
  constructor
  · simp only [get_champion_list, hv2, hcached]
  · simp only [get_champion_list, hv1, hmiss] at h1
    cases hp : getPlatformV v1 with
    | error e => simp [hp] at h1
    | ok p =>
        simp only [hp] at h1
        cases htr : tr (champion_list_url p) with
        | error e =>
            simp only [htr, Prod.mk.injEq] at h1
            obtain ⟨_, h2⟩ := h1
            subst h2
            rfl
        | ok payload =>
            simp only [htr] at h1
            cases hb : build_champion_list v1 p payload with
            | error e =>
                simp only [hb, Prod.mk.injEq] at h1
                obtain ⟨h1a, h2⟩ := h1
                exact absurd h1a (by simp)
            | ok rec =>
                simp only [hb, Prod.mk.injEq, Except.ok.injEq] at h1
                obtain ⟨_, h2⟩ := h1
                subst h2
                rfl

/-- Empty starting state. -/
def st0 : ApiState :=
  { championListCache := [], masteryListCache := [], mapListCache := [],
    itemListCache := [], spellListCache := [], fetchCount := 0 }

/-- Concrete champions payload used by the scenarios: one champion
with id 1. -/
def champPayload : Payload :=
  [("type", .tF (.fStr "champion")), ("version", .tF (.fStr "7.9.1")),
   ("data", .tData [(.kStr "1", [("id", .fInt 1), ("name", .fStr "Annie")])])]

/-- A transport that always serves `champPayload`. -/
def trChamp : Transport := fun _ => .ok champPayload

/-- A champion-list query carrying an explicit version. -/
def champListQuery : Query :=
  [("platform", .qPlatform platNA), ("version", .qStr "7.9.1")]

/-- Result of the first concrete champion-list call. -/
def champListRun : Except Err Payload × ApiState :=
  get_champion_list trChamp st0 champListQuery

/-- The record returned and cached by the first concrete call. -/
def champListRec : Payload := champListRun.1.toOption.get!

/-- State after the first concrete call. -/
def stAfterChamp : ApiState := champListRun.2

/-- The concrete champion-list query as mutated by validation. -/
def champListQueryV : Query :=
  [("platform", .qPlatform platNA), ("version", .qStr "7.9.1"),
   ("locale", .qStr "en_US"), ("includedData", .qSet ["all"]),
   ("dataById", .qBool false)]

/-- Witness for C1 at a concrete query, transport and empty cache. -/
theorem get_champion_list_cache_hit_witness :
    get_champion_list trChamp stAfterChamp champListQuery
        = (.ok champListRec, stAfterChamp) ∧
      stAfterChamp.fetchCount = st0.fetchCount + 1 :=
  get_champion_list_cache_hit trChamp st0 stAfterChamp
    champListQuery champListQuery champListQueryV champListQueryV champListRec
    (by decide) (by decide) rfl (by decide) (by decide)

/-- C6 (code bug): a champion-list query that omits the optional
version passes validation, yet after a successful fetch the per-record
stamping reads `query["version"]` and raises `KeyError` — not
`NotFound` or `InvalidQuery`. -/
theorem get_champion_list_keyError_on_missing_version :
    get_champion_list trChamp st0
        [("platform", .qPlatform platNA), ("locale", .qStr "en_US")]
      = (.error .keyError, st0.bump) := by
  decide

/-!
## Champion fan-out (`StaticDataAPI.get_many_champion`)
-/

/-- One pull of the `get_many_champion` generator for a given id:
`data["data"][str(id)]` (a `KeyError` — from a missing `data` key or a
missing id — is caught and re-raised as `NotFoundError`), then stamp
`region` from the query's platform, `version` from the fetched
payload (`data["version"]`), `locale` and `includedData` from the
query. -/
def champ_many_element (payload : Payload) (q : Query) (id : Int) :
    Except Err Rec :=
  match aget payload "data" with
  | none => .error .notFound
  | some (.tF _) => .error .typeError
  | some (.tData entries) =>
      match aget entries (.kStr (toString id)) with
      | none => .error .notFound
      | some r =>
          match aget q "platform" with
          | some (.qPlatform p) =>
              match aget payload "version" with
              | none => .error .keyError
              | some (.tData _) => .error .typeError
              | some (.tF pv) =>
                  match aget q "locale", aget q "includedData" with
                  | some loc, some inc =>
                      match qvalToF loc, qvalToF inc with
                      | .ok locF, .ok incF =>
                          .ok (stampRec p.region pv locF incF r)
                      | _, _ => .error .typeError
                  | _, _ => .error .keyError
          | some _ => .error .typeError
          | none => .error .keyError

/-- Consumption of a Python generator that may raise while producing
an element: elements are yielded until the first raise, the raise is
observed by the consumer as that element's failure, and the generator
is finished afterwards (subsequent pulls stop the iteration). -/
def consume_generator (step : Int → Except Err Rec) : List Int → List (Except Err Rec)
  | [] => []
  | id :: rest =>
      match step id with
      | .error e => [.error e]
      | .ok r => .ok r :: consume_generator step rest

/-- `StaticDataAPI.get_many_champion`: validate, fetch the full
champion list once, and return the generator over the requested ids
(embedded as its full pull sequence). -/
def get_many_champion (tr : Transport) (st : ApiState) (q0 : Query) :
    Except Err (List (Except Err Rec)) × ApiState :=
  match validate_get_many_entity_query q0 with
  | .error e => (.error e, st)
  | .ok q =>
      match getPlatformV q with
      | .error e => (.error e, st)
      | .ok p =>
          let st1 := st.bump
          match tr (champion_list_url p) with
          | .error _ => (.error .notFound, st1)
          | .ok payload =>
              match aget q "ids" with
              | some (.qIntList ids) =>
                  (.ok (consume_generator (champ_many_element payload q) ids), st1)
              | _ => (.error .typeError, st1)

/-- A fully explicit `get_many` query (every optional field present),
on which validation is the identity. -/
def mkManyQuery (p : Platform) (ver loc : String) (inc : List String)
    (ids : List Int) : Query :=
  [("ids", .qIntList ids), ("platform", .qPlatform p), ("version", .qStr ver),
   ("locale", .qStr loc), ("includedData", .qSet inc)]

theorem validate_mkManyQuery (p : Platform) (ver loc : String)
    (inc : List String) (ids : List Int) :
    validate_get_many_entity_query (mkManyQuery p ver loc inc ids)
      = .ok (mkManyQuery p ver loc inc ids) := rfl

theorem champ_many_element_found (payload : Payload) (p : Platform)
    (ver loc : String) (inc : List String) (ids : List Int) (id : Int)
    (entries : List (PyKey × Rec)) (pv : FVal) (r : Rec)
    (hdata : aget payload "data" = some (.tData entries))
    (hver : aget payload "version" = some (.tF pv))
    (hfound : aget entries (.kStr (toString id)) = some r) :
    champ_many_element payload (mkManyQuery p ver loc inc ids) id
      = .ok (stampRec p.region pv (.fStr loc) (.fSet inc) r) := by
  simp only [champ_many_element, hdata, hver, hfound]
  rfl

theorem champ_many_element_missing (payload : Payload) (q : Query) (id : Int)
    (entries : List (PyKey × Rec))
    (hdata : aget payload "data" = some (.tData entries))
    (hmiss : aget entries (.kStr (toString id)) = none) :
    champ_many_element payload q id = .error .notFound := by
  simp only [champ_many_element, hdata, hmiss]

theorem consume_generator_prefix (step : Int → Except Err Rec)
    (ids1 : List Int) (idm : Int) (rest : List Int)
    (hpres : ∀ id ∈ ids1, ∃ r, step id = .ok r)
    (hmiss : step idm = .error .notFound) :
    ∃ oks : List Rec, oks.length = ids1.length ∧
      consume_generator step (ids1 ++ idm :: rest)
        = oks.map Except.ok ++ [.error .notFound] := by
  induction ids1 with
  | nil =>
      refine ⟨[], rfl, ?_⟩
      simp [consume_generator, hmiss]
  | cons id t ih =>
      obtain ⟨r, hr⟩ := hpres id (List.mem_cons_self id t)
      obtain ⟨oks, hlen, hval⟩ := ih (fun i hi => hpres i (List.mem_cons_of_mem id hi))
      refine ⟨r :: oks, by simp [hlen], ?_⟩
      simp [consume_generator, hr, hval]

/-- C2 (amended): in `get_many_champion` a missing id yields a
`NotFound` failure at the point that element is pulled, every id
before the first missing one is yielded as a success, and — because
the raise terminates the generator — no element after the first
missing id is produced. -/
theorem get_many_champion_element_isolation (tr : Transport) (st : ApiState)
    (p : Platform) (ver loc : String) (inc : List String)
    (entries : List (PyKey × Rec)) (pv : FVal)
    (ids1 : List Int) (idm : Int) (rest : List Int) (payload : Payload)
    (htr : tr (champion_list_url p) = .ok payload)
    (hdata : aget payload "data" = some (.tData entries))
    (hver : aget payload "version" = some (.tF pv))
    (hpresent : ∀ id ∈ ids1, ∃ r, aget entries (.kStr (toString id)) = some r)
    (hmissing : aget entries (.kStr (toString idm)) = none) :
    ∃ oks : List Rec, oks.length = ids1.length ∧
      get_many_champion tr st (mkManyQuery p ver loc inc (ids1 ++ idm :: rest))
        = (.ok (oks.map Except.ok ++ [.error .notFound]), st.bump) := by
  obtain ⟨oks, hlen, hval⟩ := consume_generator_prefix
    (champ_many_element payload (mkManyQuery p ver loc inc (ids1 ++ idm :: rest)))
    ids1 idm rest
    (fun id hid => by
      obtain ⟨r, hr⟩ := hpresent id hid
      exact ⟨_, champ_many_element_found payload p ver loc inc _ id entries pv r
        hdata hver hr⟩)
    (champ_many_element_missing payload _ idm entries hdata hmissing)
  refine ⟨oks, hlen, ?_⟩
  have hplat : getPlatformV (mkManyQuery p ver loc inc (ids1 ++ idm :: rest))
      = .ok p := rfl
  have hids : aget (mkManyQuery p ver loc inc (ids1 ++ idm :: rest)) "ids"
      = some (.qIntList (ids1 ++ idm :: rest)) := rfl
  simp only [get_many_champion, validate_mkManyQuery, hplat, htr, hids, hval]

/-- Witness for the amended C2 at concrete inputs: ids `[1, 999999]`
against a payload holding only id 1 yield one success and one
terminal `NotFound`. -/
theorem get_many_champion_element_isolation_witness :
    ∃ oks : List Rec, oks.length = 1 ∧
      get_many_champion trChamp st0 (mkManyQuery platNA "7.9.1" "en_US" ["all"] ([1] ++ 999999 :: []))
        = (.ok (oks.map Except.ok ++ [.error .notFound]), st0.bump) :=
  get_many_champion_element_isolation trChamp st0 platNA "7.9.1" "en_US" ["all"]
    [(.kStr "1", [("id", .fInt 1), ("name", .fStr "Annie")])] (.fStr "7.9.1")
    [1] 999999 [] champPayload rfl (by decide) (by decide)
    (by
      intro id hid
      have h1 : id = 1 := by simpa using hid
      subst h1
      exact ⟨[("id", .fInt 1), ("name", .fStr "Annie")], by decide⟩)
    (by decide)

/-- C2 (counterexample to the claim as stated): with ids
`[999999, 1]` — the missing id first — the pull sequence is just the
single `NotFound`; the present id 1 is never yielded, because the
raised `NotFoundError` terminates the generator. -/
theorem get_many_champion_abort_counterexample :
    get_many_champion trChamp st0
        (mkManyQuery platNA "7.9.1" "en_US" ["all"] [999999, 1])
      = (.ok [.error .notFound], st0.bump) := by
  decide

theorem stampRec_version (reg : String) (ver loc inc : FVal) (r : Rec) :
    aget (stampRec reg ver loc inc r) "version" = some ver := by
  unfold stampRec
  rw [aget_aput_ne _ _ _ _ (by decide), aget_aput_ne _ _ _ _ (by decide),
    aget_aput_self]

theorem stampRec_region (reg : String) (ver loc inc : FVal) (r : Rec) :
    aget (stampRec reg ver loc inc r) "region" = some (.fStr reg) := by
  unfold stampRec
  rw [aget_aput_ne _ _ _ _ (by decide), aget_aput_ne _ _ _ _ (by decide),
    aget_aput_ne _ _ _ _ (by decide), aget_aput_self]

theorem stampRec_locale (reg : String) (ver loc inc : FVal) (r : Rec) :
    aget (stampRec reg ver loc inc r) "locale" = some loc := by
  unfold stampRec
  rw [aget_aput_ne _ _ _ _ (by decide), aget_aput_self]

theorem stampRec_includedData (reg : String) (ver loc inc : FVal) (r : Rec) :
    aget (stampRec reg ver loc inc r) "includedData" = some inc := by
  unfold stampRec
  rw [aget_aput_self]

theorem stampRec_other (reg : String) (ver loc inc : FVal) (r : Rec)
    (k : String) (h1 : k ≠ "region") (h2 : k ≠ "version")
    (h3 : k ≠ "locale") (h4 : k ≠ "includedData") :
    aget (stampRec reg ver loc inc r) k = aget r k := by
  unfold stampRec
  rw [aget_aput_ne _ _ _ _ (Ne.symm h4), aget_aput_ne _ _ _ _ (Ne.symm h3),
    aget_aput_ne _ _ _ _ (Ne.symm h2), aget_aput_ne _ _ _ _ (Ne.symm h1)]

theorem consume_generator_ok_mem (step : Int → Except Err Rec)
    (ids : List Int) :
    ∀ e ∈ consume_generator step ids, ∀ r, e = .ok r →
      ∃ id, step id = .ok r := by
  induction ids with
  | nil =>
      intro e he
      simp [consume_generator] at he
  | cons id t ih =>
      intro e he r hr
      cases hs : step id with
      | error err =>
          simp only [consume_generator, hs, List.mem_singleton] at he
          subst he
          exact absurd hr (by simp)
      | ok r0 =>
          simp only [consume_generator, hs, List.mem_cons] at he
          rcases he with h | h
          · subst hr
            injection h with h
            exact ⟨id, by rw [hs, h]⟩
          · exact ih e h r hr

theorem champ_many_element_ok_inv (payload : Payload) (p : Platform)
    (ver loc : String) (inc : List String) (ids : List Int) (id : Int)
    (r : Rec)
    (h : champ_many_element payload (mkManyQuery p ver loc inc ids) id = .ok r) :
    ∃ pv r0, aget payload "version" = some (.tF pv) ∧
      r = stampRec p.region pv (.fStr loc) (.fSet inc) r0 := by
  unfold champ_many_element at h
  cases hd : aget payload "data" with
  | none => simp [hd] at h
  | some dv =>
      cases dv with
      | tF v => simp [hd] at h
      | tData entries =>
          simp only [hd] at h
          cases hf : aget entries (.kStr (toString id)) with
          | none => simp [hf] at h
          | some r0 =>
              simp only [hf] at h
              have hp : aget (mkManyQuery p ver loc inc ids) "platform"
                  = some (.qPlatform p) := rfl
              have hl : aget (mkManyQuery p ver loc inc ids) "locale"
                  = some (.qStr loc) := rfl
              have hi : aget (mkManyQuery p ver loc inc ids) "includedData"
                  = some (.qSet inc) := rfl
              simp only [hp, hl, hi] at h
              cases hv : aget payload "version" with
              | none => simp [hv] at h
              | some vv =>
                  cases vv with
                  | tData d => simp [hv] at h
                  | tF pv =>
                      simp only [hv, qvalToF, Except.ok.injEq] at h
                      exact ⟨pv, r0, rfl, h.symm⟩

/-- C4 (amended): every record yielded by `get_many_champion` carries
the query's region, locale and includedData, but its version is the
one reported by the fetched payload (`data["version"]`), not the
query's resolved version. -/
theorem get_many_champion_stamping (tr : Transport) (st : ApiState)
    (p : Platform) (ver loc : String) (inc : List String) (ids : List Int)
    (payload : Payload) (results : List (Except Err Rec)) (st' : ApiState)
    (htr : tr (champion_list_url p) = .ok payload)
    (h : get_many_champion tr st (mkManyQuery p ver loc inc ids)
      = (.ok results, st')) :
    ∀ e ∈ results, ∀ r, e = .ok r →
      ∃ pv r0, aget payload "version" = some (.tF pv) ∧
        aget r "version" = some pv ∧
        aget r "region" = some (.fStr p.region) ∧
        aget r "locale" = some (.fStr loc) ∧
        aget r "includedData" = some (.fSet inc) ∧
        r = stampRec p.region pv (.fStr loc) (.fSet inc) r0 := by
  have hplat : getPlatformV (mkManyQuery p ver loc inc ids) = .ok p := rfl
  have hids : aget (mkManyQuery p ver loc inc ids) "ids"
      = some (.qIntList ids) := rfl
  simp only [get_many_champion, validate_mkManyQuery, hplat, htr, hids,
    Prod.mk.injEq, Except.ok.injEq] at h
  obtain ⟨hres, _⟩ := h
  intro e he r hr
  rw [← hres] at he
  obtain ⟨id, hid⟩ := consume_generator_ok_mem _ _ e he r hr
  obtain ⟨pv, r0, hpv, hr0⟩ :=
    champ_many_element_ok_inv payload p ver loc inc ids id r hid
  subst hr0
  exact ⟨pv, r0, hpv, stampRec_version .., stampRec_region ..,
    stampRec_locale .., stampRec_includedData .., rfl⟩

/-- The raw record of champion id 1 inside `champPayload`. -/
def annieRec : Rec := [("id", .fInt 1), ("name", .fStr "Annie")]

/-- The record `get_many_champion` yields for id 1 from
`champPayload`. -/
def stampedAnnie : Rec :=
  stampRec platNA.region (.fStr "7.9.1") (.fStr "en_US") (.fSet ["all"]) annieRec

/-- Witness for the amended C4 at concrete inputs. -/
theorem get_many_champion_stamping_witness :
    ∃ pv r0, aget champPayload "version" = some (.tF pv) ∧
      aget stampedAnnie "version" = some pv ∧
      aget stampedAnnie "region" = some (.fStr platNA.region) ∧
      aget stampedAnnie "locale" = some (.fStr "en_US") ∧
      aget stampedAnnie "includedData" = some (.fSet ["all"]) ∧
      stampedAnnie = stampRec platNA.region pv (.fStr "en_US") (.fSet ["all"]) r0 :=
  get_many_champion_stamping trChamp st0 platNA "9.9.9" "en_US" ["all"] [1]
    champPayload [.ok stampedAnnie] st0.bump rfl (by decide)
    (.ok stampedAnnie) (by decide) stampedAnnie rfl

/-- C4 (counterexample to the claim as stated): the query resolves
version "9.9.9" but the yielded record carries the payload's version
"7.9.1". -/
theorem get_many_champion_version_counterexample :
    (get_many_champion trChamp st0
        (mkManyQuery platNA "9.9.9" "en_US" ["all"] [1])).1
        = .ok [.ok stampedAnnie] ∧
      aget stampedAnnie "version" = some (.fStr "7.9.1") ∧
      ¬ aget stampedAnnie "version" = some (.fStr "9.9.9") := by
  decide

/-!
## Single-entity gets (`get_champion`, `get_mastery`, `get_map`)
-/

/-- The inner `find_matching_attribute` helper: scan the values of
`data["data"]` for the first record whose attribute equals the target
(`dto.get(attrname, None) == attrvalue`).  The index of the match is
returned alongside so the in-place mutation of the matched record can
be expressed under value semantics. -/
def find_matching_attribute (entries : List (PyKey × Rec)) (attr : String)
    (tv : FVal) : Option (Nat × Rec) :=
  match entries with
  | [] => none
  | (_, r) :: rest =>
      if aget r attr = some tv then some (0, r)
      else (find_matching_attribute rest attr tv).map (fun pr => (pr.1 + 1, pr.2))

/-- Replace the record at a position of a `data` mapping, keeping its
key: the value-semantics image of mutating the matched record in
place. -/
def setValAt : List (PyKey × Rec) → Nat → Rec → List (PyKey × Rec)
  | [], _, _ => []
  | (k, _) :: rest, 0, r => (k, r) :: rest
  | kv :: rest, n + 1, r => kv :: setValAt rest n r

/-- Resolution of the contextual values a single-get stamps onto its
result: `region` from the query's platform, `version`, `locale` (and
`includedData` unless the type is map) from the query. -/
def stamp_params (q : Query) (withIncl : Bool) :
    Except Err (String × FVal × FVal × FVal) :=
  match aget q "platform" with
  | some (.qPlatform p) =>
      match aget q "version", aget q "locale" with
      | some ver, some loc =>
          match qvalToF ver, qvalToF loc with
          | .ok verF, .ok locF =>
              match withIncl with
              | true =>
                  match aget q "includedData" with
                  | some inc =>
                      match qvalToF inc with
                      | .ok incF => .ok (p.region, verF, locF, incF)
                      | .error e => .error e
                  | none => .error .keyError
              | false => .ok (p.region, verF, locF, .fStr "")
          | _, _ => .error .typeError
      | _, _ => .error .keyError
  | some _ => .error .typeError
  | none => .error .keyError

/-- Contextual stamping of a single-get result (champion lines 89-92
and the analogous blocks). -/
def stamp_single (q : Query) (withIncl : Bool) (r : Rec) : Except Err Rec :=
  match stamp_params q withIncl, withIncl with
  | .error e, _ => .error e
  | .ok prm, true => .ok (stampRec prm.1 prm.2.1 prm.2.2.1 prm.2.2.2 r)
  | .ok prm, false =>
      .ok (aput (aput (aput r "region" (.fStr prm.1)) "version" prm.2.1)
        "locale" prm.2.2.1)

/-- URL of a single champion fetch. -/
def champion_single_url (p : Platform) (id : Int) : String :=
  "https://" ++ p.value.toLower ++ ".api.riotgames.com/lol/static-data/v3/champions/"
    ++ toString id

/-- Shared list-and-filter branch of the single-entity gets: strip the
identity keys, delegate to the list operation (which may hit the
cache), find the first record matching the requested id or name, stamp
it in place — the cached list aliases the mutated record, so the cache
entry under the stripped query's fingerprint is updated accordingly —
and return the stamped record. -/
def single_via_list (q : Query)
    (listOp : ApiState → Query → Except Err Payload × ApiState)
    (listValidate : Query → Except Err Query)
    (withIncl : Bool)
    (cacheGet : ApiState → List (List QVal × Payload))
    (cacheSet : ApiState → List (List QVal × Payload) → ApiState)
    (st : ApiState) : Except Err Rec × ApiState :=
  match listOp st (apop (apop q "id") "name") with
  | (.error e, st1) => (.error e, st1)
  | (.ok listRec, st1) =>
      match listValidate (apop (apop q "id") "name") with
      | .error e => (.error e, st1)
      | .ok cqv =>
          match aget listRec "data" with
          | none => (.error .keyError, st1)
          | some (.tF _) => (.error .typeError, st1)
          | some (.tData entries) =>
              match (if (aget q "id").isSome then some "id"
                     else if (aget q "name").isSome then some "name"
                     else none) with
              | none => (.error .typeError, st1)
              | some attr =>
                  match aget q attr with
                  | none => (.error .keyError, st1)
                  | some tvq =>
                      match qvalToF tvq with
                      | .error e => (.error e, st1)
                      | .ok tv =>
                          match find_matching_attribute entries attr tv with
                          | none => (.error .notFound, st1)
                          | some (i, dto) =>
                              match stamp_single q withIncl dto with
                              | .error e => (.error e, st1)
                              | .ok dto' =>
                                  (.ok dto',
                                    cacheSet st1 (aput (cacheGet st1)
                                      (calculate_hash cqv) (aput listRec "data"
                                        (.tData (setValAt entries i dto')))))

/-- `StaticDataAPI.get_champion`: validate; with the request-by-id
setting on or a name in the query, resolve through the champion list;
otherwise fetch the single-champion endpoint directly and stamp. -/
def get_champion (reqById : Bool) (realmV : String) (trList : Transport)
    (trSingle : RecTransport) (st : ApiState) (q0 : Query) :
    Except Err Rec × ApiState :=
  match validate_get_champion_query realmV q0 with
  | .error e => (.error e, st)
  | .ok q =>
      if reqById || (aget q "name").isSome then
        single_via_list q (get_champion_list trList)
          validate_get_champion_list_query true
          (fun s => s.championListCache)
          (fun s c => { s with championListCache := c }) st
      else
        match getPlatformV q with
        | .error e => (.error e, st)
        | .ok p =>
            match aget q "id" with
            | some (.qInt i) =>
                let st1 := st.bump
                match trSingle (champion_single_url p i) with
                | .error _ => (.error .notFound, st1)
                | .ok data =>
                    match stamp_single q true data with
                    | .error e => (.error e, st1)
                    | .ok d => (.ok d, st1)
            | _ => (.error .keyError, st)

/-!
## Mastery list and single mastery
-/

/-- URL of the masteries list endpoint. -/
def mastery_list_url (p : Platform) : String :=
  "https://" ++ p.value.toLower ++ ".api.riotgames.com/lol/static-data/v3/masteries"

/-- Lines 389-396 of the source: stamp the fetched masteries payload
like the champion list, except that each record's `version` is taken
from the payload's own `data["version"]` field, not from the
query. -/
def build_mastery_list (q : Query) (p : Platform) (payload : Payload) :
    Except Err Payload :=
  match aget q "locale", aget q "includedData" with
  | some loc, some inc =>
      match qvalToF loc, qvalToF inc with
      | .ok locF, .ok incF =>
          let d1 := aput (aput (aput payload "region" (.tF (.fStr p.region)))
            "locale" (.tF locF)) "includedData" (.tF incF)
          match aget d1 "data" with
          | none => .error .keyError
          | some (.tF _) => .error .typeError
          | some (.tData entries) =>
              match entries with
              | [] => .ok d1
              | _ :: _ =>
                  match aget d1 "version" with
                  | none => .error .keyError
                  | some (.tData _) => .error .typeError
                  | some (.tF pv) =>
                      .ok (aput d1 "data" (.tData (entries.map
                        (fun kv => (kv.1, stampRec p.region pv locF incF kv.2)))))
      | _, _ => .error .typeError
  | _, _ => .error .keyError

/-- `StaticDataAPI.get_mastery_list`: the cached list getter for
masteries. -/
def get_mastery_list (tr : Transport) (st : ApiState) (q0 : Query) :
    Except Err Payload × ApiState :=
  match validate_get_mastery_list_query q0 with
  | .error e => (.error e, st)
  | .ok q =>
      let ahash := calculate_hash q
      match aget st.masteryListCache ahash with
      | some rec => (.ok rec, st)
      | none =>
          match getPlatformV q with
          | .error e => (.error e, st)
          | .ok p =>
              let st1 := st.bump
              match tr (mastery_list_url p) with
              | .error _ => (.error .notFound, st1)
              | .ok payload =>
                  match build_mastery_list q p payload with
                  | .error e => (.error e, st1)
                  | .ok rec =>
                      (.ok rec,
                        { st1 with masteryListCache := aput st1.masteryListCache ahash rec })

/-- URL of a single mastery fetch. -/
def mastery_single_url (p : Platform) (id : Int) : String :=
  "https://" ++ p.value.toLower ++ ".api.riotgames.com/lol/static-data/v3/masteries/"
    ++ toString id

/-- `StaticDataAPI.get_mastery`. -/
def get_mastery (reqById : Bool) (realmV : String) (trList : Transport)
    (trSingle : RecTransport) (st : ApiState) (q0 : Query) :
    Except Err Rec × ApiState :=
  match validate_get_mastery_query realmV q0 with
  | .error e => (.error e, st)
  | .ok q =>
      if reqById || (aget q "name").isSome then
        single_via_list q (get_mastery_list trList)
          validate_get_mastery_list_query true
          (fun s => s.masteryListCache)
          (fun s c => { s with masteryListCache := c }) st
      else
        match getPlatformV q with
        | .error e => (.error e, st)
        | .ok p =>
            match aget q "id" with
            | some (.qInt i) =>
                let st1 := st.bump
                match trSingle (mastery_single_url p i) with
                | .error _ => (.error .notFound, st1)
                | .ok data =>
                    match stamp_single q true data with
                    | .error e => (.error e, st1)
                    | .ok d => (.ok d, st1)
            | _ => (.error .keyError, st)

/-!
## Map list and single map
-/

/-- URL of the maps list endpoint. -/
def map_list_url (p : Platform) : String :=
  "https://" ++ p.value.toLower ++ ".api.riotgames.com/lol/static-data/v3/maps"

/-- Lines 906-907 of the source: the map list build stamps only the
top-level `region` and `locale`; the contained map records are left
exactly as fetched. -/
def build_map_list (q : Query) (p : Platform) (payload : Payload) :
    Except Err Payload :=
  match aget q "locale" with
  | some loc =>
      match qvalToF loc with
      | .ok locF =>
          .ok (aput (aput payload "region" (.tF (.fStr p.region))) "locale" (.tF locF))
      | .error e => .error e
  | none => .error .keyError

/-- `StaticDataAPI.get_map_list`. -/
def get_map_list (tr : Transport) (st : ApiState) (q0 : Query) :
    Except Err Payload × ApiState :=
  match validate_get_map_list_query q0 with
  | .error e => (.error e, st)
  | .ok q =>
      let ahash := calculate_hash q
      match aget st.mapListCache ahash with
      | some rec => (.ok rec, st)
      | none =>
          match getPlatformV q with
          | .error e => (.error e, st)
          | .ok p =>
              let st1 := st.bump
              match tr (map_list_url p) with
              | .error _ => (.error .notFound, st1)
              | .ok payload =>
                  match build_map_list q p payload with
                  | .error e => (.error e, st1)
                  | .ok rec =>
                      (.ok rec,
                        { st1 with mapListCache := aput st1.mapListCache ahash rec })

/-- `StaticDataAPI.get_map`: the list-and-filter branch mirrors the
other single-entity gets (stamping without includedData); but the
direct-fetch branch is absent from the source — when the
request-by-id setting is off and no name is given, the function body
ends without a `return` or a fetch, so Python returns `None`. -/
def get_map (reqById : Bool) (realmV : String) (trList : Transport)
    (st : ApiState) (q0 : Query) : Except Err (Option Rec) × ApiState :=
  match validate_get_map_query realmV q0 with
  | .error e => (.error e, st)
  | .ok q =>
      if reqById || (aget q "name").isSome then
        match single_via_list q (get_map_list trList)
            validate_get_map_list_query false
            (fun s => s.mapListCache)
            (fun s c => { s with mapListCache := c }) st with
        | (.error e, st1) => (.error e, st1)
        | (.ok r, st1) => (.ok (some r), st1)
      else
        (.ok none, st)

/-- A map query identified by id only, with all defaults resolved. -/
def mapQueryDirect : Query :=
  [("id", .qInt 11), ("platform", .qPlatform platNA),
   ("version", .qStr "7.9.1"), ("locale", .qStr "en_US")]

/-- C5 (code bug): with the request-by-id setting off and an id-only
query, `get_map` performs no fetch and returns Python `None` — the
direct-fetch branch that every other single-entity get has is missing
from `get_map`, so the two-branch strategy is not uniform and `get`
for map can return an absent result. -/
theorem get_map_direct_path_returns_none :
    get_map false "7.9.1" trChamp st0 mapQueryDirect = (.ok none, st0) := by
  decide

/-- C8: a single-entity query carrying both identity keys, or
neither, fails validation with `InvalidQuery` for every one of the six
single-entity validators, and the three modelled get operations return
that failure with the state — including the transport invocation
count — untouched, i.e. before any network call. -/
theorem single_get_rejects_bad_identity (realmV : String) (q : Query)
    (h : ((aget q "id").isSome ∧ (aget q "name").isSome) ∨
         (aget q "id" = none ∧ aget q "name" = none)) :
    (validate_get_champion_query realmV q = .error .invalidQuery) ∧
    (validate_get_mastery_query realmV q = .error .invalidQuery) ∧
    (validate_get_rune_query realmV q = .error .invalidQuery) ∧
    (validate_get_item_query realmV q = .error .invalidQuery) ∧
    (validate_get_summoner_spell_query realmV q = .error .invalidQuery) ∧
    (validate_get_map_query realmV q = .error .invalidQuery) ∧
    (∀ reqById trL trS st, get_champion reqById realmV trL trS st q
      = (.error .invalidQuery, st)) ∧
    (∀ reqById trL trS st, get_mastery reqById realmV trL trS st q
      = (.error .invalidQuery, st)) ∧
    (∀ reqById trL st, get_map reqById realmV trL st q
      = (.error .invalidQuery, st)) := by
  have hc : checkIdOrName q = .error .invalidQuery := by
    unfold checkIdOrName
    rcases h with ⟨h1, h2⟩ | ⟨h1, h2⟩
    · rw [Option.isSome_iff_exists] at h1 h2
      obtain ⟨v1, hv1⟩ := h1
      obtain ⟨v2, hv2⟩ := h2
      rw [hv1, hv2]
    · rw [h1, h2]
  have hv : ∀ wi : Bool, validate_single_entity_query realmV wi q
      = .error .invalidQuery := by
    intro wi
    unfold validate_single_entity_query
    rw [hc]
  refine ⟨hv true, hv true, hv true, hv true, hv true, hv false, ?_, ?_, ?_⟩
  · intro reqById trL trS st
    simp only [get_champion, validate_get_champion_query, hv true]
  · intro reqById trL trS st
    simp only [get_mastery, validate_get_mastery_query, hv true]
  · intro reqById trL st
    simp only [get_map, validate_get_map_query, hv false]

/-- A query carrying both an id and a name. -/
def ambiguousQuery : Query :=
  [("id", .qInt 17), ("name", .qStr "Teemo"), ("platform", .qPlatform platNA)]

/-- A single-item transport that always reports absence. -/
def trRecEmpty : RecTransport := fun _ => .error ()

/-- Witness for C8 at a concrete both-present query. -/
theorem single_get_rejects_bad_identity_witness :
    validate_get_champion_query "7.9.1" ambiguousQuery = .error .invalidQuery ∧
    get_champion false "7.9.1" trChamp trRecEmpty st0 ambiguousQuery
      = (.error .invalidQuery, st0) := by
  obtain ⟨h1, _, _, _, _, _, h7, _, _⟩ := single_get_rejects_bad_identity
    "7.9.1" ambiguousQuery (.inl ⟨by decide, by decide⟩)
  exact ⟨h1, h7 false trChamp trRecEmpty st0⟩

/-!
## Cache immutability (C9)
-/

theorem find_matching_attribute_spec (entries : List (PyKey × Rec))
    (attr : String) (tv : FVal) :
    ∀ i dto, find_matching_attribute entries attr tv = some (i, dto) →
      ∃ k, entries.get? i = some (k, dto) := by
  induction entries with
  | nil => intro i dto h; simp [find_matching_attribute] at h
  | cons kv rest ih =>
      intro i dto h
      obtain ⟨k0, r0⟩ := kv
      by_cases hm : aget r0 attr = some tv
      · simp only [find_matching_attribute, if_pos hm, Option.some.injEq,
          Prod.mk.injEq] at h
        obtain ⟨hi, hd⟩ := h
        subst hi
        subst hd
        exact ⟨k0, rfl⟩
      · simp only [find_matching_attribute, if_neg hm, Option.map_eq_some'] at h
        obtain ⟨⟨i0, d0⟩, hfind, heq⟩ := h
        simp only [Prod.mk.injEq] at heq
        obtain ⟨hi, hd⟩ := heq
        subst hd
        obtain ⟨k, hk⟩ := ih i0 d0 hfind
        exact ⟨k, by rw [← hi]; simpa using hk⟩

theorem setValAt_self : ∀ (entries : List (PyKey × Rec)) (i : Nat)
    (k : PyKey) (dto : Rec), entries.get? i = some (k, dto) →
      setValAt entries i dto = entries
  | [], i, _, _, h => by simp at h
  | kv :: rest, 0, k, dto, h => by
      simp only [List.get?_cons_zero, Option.some.injEq] at h
      subst h
      rfl
  | kv :: rest, i + 1, k, dto, h => by
      simp only [List.get?_cons_succ] at h
      simp [setValAt, setValAt_self rest i k dto h]

theorem stampRec_idem (reg : String) (v l i : FVal) (r : Rec) :
    stampRec reg v l i (stampRec reg v l i r) = stampRec reg v l i r := by
  conv_lhs => rw [stampRec]
  rw [aput_unchanged _ _ _ (stampRec_region reg v l i r),
    aput_unchanged _ _ _ (stampRec_version reg v l i r),
    aput_unchanged _ _ _ (stampRec_locale reg v l i r),
    aput_unchanged _ _ _ (stampRec_includedData reg v l i r)]

/-- A fully explicit single-champion query, on which validation is the
identity. -/
def mkChampionQuery (p : Platform) (ver loc : String) (inc : List String)
    (id : Int) : Query :=
  [("id", .qInt id), ("platform", .qPlatform p), ("version", .qStr ver),
   ("locale", .qStr loc), ("includedData", .qSet inc)]

/-- The champion-list query obtained by stripping the identity keys
from `mkChampionQuery`. -/
def mkListQuery (p : Platform) (ver loc : String) (inc : List String) : Query :=
  [("platform", .qPlatform p), ("version", .qStr ver),
   ("locale", .qStr loc), ("includedData", .qSet inc)]

/-- `mkListQuery` as mutated by the champion-list validator. -/
def mkListQueryV (p : Platform) (ver loc : String) (inc : List String) : Query :=
  [("platform", .qPlatform p), ("version", .qStr ver),
   ("locale", .qStr loc), ("includedData", .qSet inc),
   ("dataById", .qBool false)]

theorem build_champion_list_inv (p : Platform) (ver loc : String)
    (inc : List String) (payload lst : Payload)
    (h : build_champion_list (mkListQueryV p ver loc inc) p payload = .ok lst) :
    ∃ entries, aget payload "data" = some (.tData entries) ∧
      aget lst "data" = some (.tData (entries.map
        (fun kv => (kv.1, stampRec p.region (.fStr ver) (.fStr loc)
          (.fSet inc) kv.2)))) := by
  have hl : aget (mkListQueryV p ver loc inc) "locale" = some (.qStr loc) := rfl
  have hi : aget (mkListQueryV p ver loc inc) "includedData"
      = some (.qSet inc) := rfl
  have hv : aget (mkListQueryV p ver loc inc) "version" = some (.qStr ver) := rfl
  unfold build_champion_list at h
  rw [hl, hi] at h
  simp only [qvalToF] at h
  cases hd : aget (aput (aput (aput payload "region" (.tF (.fStr p.region)))
      "locale" (.tF (.fStr loc))) "includedData" (.tF (.fSet inc))) "data" with
  | none => rw [hd] at h; exact absurd h (by simp)
  | some dv =>
      rw [hd] at h
      have hd0 : aget payload "data" = some dv := by
        rw [aget_aput_ne _ _ _ _ (by decide), aget_aput_ne _ _ _ _ (by decide),
          aget_aput_ne _ _ _ _ (by decide)] at hd
        exact hd
      cases dv with
      | tF v => exact absurd h (by simp)
      | tData entries =>
          cases entries with
          | nil =>
              simp only [Except.ok.injEq] at h
              subst h
              exact ⟨[], hd0, by simpa using hd⟩
          | cons e0 erest =>
              rw [hv] at h
              simp only [qvalToF, Except.ok.injEq] at h
              subst h
              exact ⟨e0 :: erest, hd0, aget_aput_self _ _ _⟩

/-- C9 (amended, champion part): a champion single get served through
the list-and-filter path stamps the matched record inside the cached
list in place, but the values it writes are exactly the values the
list build already stamped there, so the cache entry — and the whole
state — is unchanged in value.  (The map and mastery list paths do
change the cached entry; see the counterexample.) -/
theorem get_champion_via_list_no_cache_mutation
    (p : Platform) (ver loc : String) (inc : List String) (id : Int)
    (realmV : String) (trList : Transport) (trSingle : RecTransport)
    (lst : Payload) (s1 : ApiState) (c : Rec) (s2 : ApiState)
    (h1 : get_champion_list trList st0 (mkListQuery p ver loc inc)
      = (.ok lst, s1))
    (h2 : get_champion true realmV trList trSingle s1
      (mkChampionQuery p ver loc inc id) = (.ok c, s2)) :
    s2 = s1 := by
  have hvL : validate_get_champion_list_query (mkListQuery p ver loc inc)
      = .ok (mkListQueryV p ver loc inc) := rfl
  have hmiss : aget st0.championListCache
      (calculate_hash (mkListQueryV p ver loc inc)) = none := rfl
  have hplat : getPlatformV (mkListQueryV p ver loc inc) = .ok p := rfl
  -- first call: a miss that fetches, builds and stores
  simp only [get_champion_list, hvL, hmiss, hplat] at h1
  cases htr : trList (champion_list_url p) with
  | error e => simp [htr] at h1
  | ok payload =>
      simp only [htr] at h1
      cases hb : build_champion_list (mkListQueryV p ver loc inc) p payload with
      | error e => simp [hb] at h1
      | ok built =>
          simp only [hb, Prod.mk.injEq, Except.ok.injEq] at h1
          obtain ⟨hrec, hs1⟩ := h1
          have hb' : build_champion_list (mkListQueryV p ver loc inc) p payload
              = .ok lst := by rw [hb, hrec]
          obtain ⟨entries, hpd, hldata⟩ :=
            build_champion_list_inv p ver loc inc payload lst hb'
          -- second call: the single get through the list path
          have hvS : validate_get_champion_query realmV
              (mkChampionQuery p ver loc inc id)
              = .ok (mkChampionQuery p ver loc inc id) := rfl
          have hcq : apop (apop (mkChampionQuery p ver loc inc id) "id") "name"
              = mkListQuery p ver loc inc := rfl
          have hhit : aget s1.championListCache
              (calculate_hash (mkListQueryV p ver loc inc)) = some lst := by
            rw [← hs1, ← hrec]
            exact aget_aput_self _ _ _
          have hlist2 : get_champion_list trList s1 (mkListQuery p ver loc inc)
              = (.ok lst, s1) := by
            simp only [get_champion_list, hvL, hhit]
          simp only [get_champion, hvS, Bool.true_or, if_true] at h2
          unfold single_via_list at h2
          rw [hcq, hlist2] at h2
          simp only [hvL, hldata] at h2
          have hid : aget (mkChampionQuery p ver loc inc id) "id"
              = some (.qInt id) := rfl
          simp only [hid, Option.isSome_some, eq_self_iff_true, if_true] at h2
          simp only [hid, qvalToF] at h2
          cases hfind : find_matching_attribute (entries.map
              (fun kv => (kv.1, stampRec p.region (.fStr ver) (.fStr loc)
                (.fSet inc) kv.2))) "id" (.fInt id) with
          | none => simp [hfind] at h2
          | some pr =>
              obtain ⟨i, dto⟩ := pr
              obtain ⟨k, hk⟩ := find_matching_attribute_spec _ _ _ i dto hfind
              rw [List.get?_map] at hk
              cases hk0 : entries.get? i with
              | none => rw [hk0] at hk; exact absurd hk (by simp)
              | some kv0 =>
                  obtain ⟨k0, r0⟩ := kv0
                  rw [hk0] at hk
                  simp only [Option.map_some', Option.some.injEq,
                    Prod.mk.injEq] at hk
                  obtain ⟨hkk, hdto⟩ := hk
                  have hstamp : stamp_single (mkChampionQuery p ver loc inc id)
                      true dto = .ok dto := by
                    have : stamp_single (mkChampionQuery p ver loc inc id)
                        true dto = .ok (stampRec p.region (.fStr ver)
                          (.fStr loc) (.fSet inc) dto) := rfl
                    rw [this, ← hdto, stampRec_idem, hdto]
                  simp only [hfind, hstamp] at h2
                  have hset : setValAt (entries.map
                      (fun kv => (kv.1, stampRec p.region (.fStr ver)
                        (.fStr loc) (.fSet inc) kv.2))) i dto
                      = entries.map (fun kv => (kv.1, stampRec p.region
                        (.fStr ver) (.fStr loc) (.fSet inc) kv.2)) := by
                    apply setValAt_self _ _ k dto
                    rw [List.get?_map, hk0]
                    simp [← hkk, ← hdto]
                  rw [hset] at h2
                  have hlput : aput lst "data" (.tData (entries.map
                      (fun kv => (kv.1, stampRec p.region (.fStr ver)
                        (.fStr loc) (.fSet inc) kv.2)))) = lst :=
                    aput_unchanged _ _ _ hldata
                  rw [hlput] at h2
                  have hcput : aput s1.championListCache
                      (calculate_hash (mkListQueryV p ver loc inc)) lst
                      = s1.championListCache := aput_unchanged _ _ _ hhit
                  rw [hcput] at h2
                  simp only [Prod.mk.injEq] at h2
                  exact h2.2.symm

/-- Witness for the amended C9: concrete champion scenario where the
list is populated and the single get is then served from the cache
without changing the state. -/
theorem get_champion_via_list_no_cache_mutation_witness :
    (get_champion true "7.9.1" trChamp trRecEmpty
        (get_champion_list trChamp st0 (mkListQuery platNA "7.9.1" "en_US" ["all"])).2
        (mkChampionQuery platNA "7.9.1" "en_US" ["all"] 1)).2
      = (get_champion_list trChamp st0 (mkListQuery platNA "7.9.1" "en_US" ["all"])).2 :=
  get_champion_via_list_no_cache_mutation platNA "7.9.1" "en_US" ["all"] 1
    "7.9.1" trChamp trRecEmpty
    (get_champion_list trChamp st0 (mkListQuery platNA "7.9.1" "en_US" ["all"])).1.toOption.get!
    (get_champion_list trChamp st0 (mkListQuery platNA "7.9.1" "en_US" ["all"])).2
    (get_champion true "7.9.1" trChamp trRecEmpty
      (get_champion_list trChamp st0 (mkListQuery platNA "7.9.1" "en_US" ["all"])).2
      (mkChampionQuery platNA "7.9.1" "en_US" ["all"] 1)).1.toOption.get!
    (get_champion true "7.9.1" trChamp trRecEmpty
      (get_champion_list trChamp st0 (mkListQuery platNA "7.9.1" "en_US" ["all"])).2
      (mkChampionQuery platNA "7.9.1" "en_US" ["all"] 1)).2
    (by decide) (by decide)

/-- A concrete maps payload: one map with id 11, records unstamped. -/
def mapPayload : Payload :=
  [("version", .tF (.fStr "7.9.1")),
   ("data", .tData [(.kStr "11", [("id", .fInt 11), ("name", .fStr "SR")])])]

/-- A transport that always serves `mapPayload`. -/
def trMap : Transport := fun _ => .ok mapPayload

/-- State after a concrete map-list call has populated the cache. -/
def stMapCached : ApiState :=
  (get_map_list trMap st0
    [("platform", .qPlatform platNA), ("version", .qStr "7.9.1"),
     ("locale", .qStr "en_US")]).2

/-- C9 (counterexample to the claim as stated): a single map get
served through the list-and-filter path from the populated cache is a
cache hit (the transport is not invoked again), yet it mutates the
cached map-list entry — the matched record gains the stamped
region/version/locale fields it did not have in the stored value. -/
theorem get_map_cache_mutation_counterexample :
    (get_map true "7.9.1" trMap stMapCached mapQueryDirect).2.fetchCount
        = stMapCached.fetchCount ∧
      (get_map true "7.9.1" trMap stMapCached mapQueryDirect).2.mapListCache
        ≠ stMapCached.mapListCache := by
  decide

/-!
## Items (`get_item`, `get_item_list`, `get_many_item`)
-/

/-- One `if key not in data: data[key] = default` repair step. -/
def defaultStep (k : String) (v : FVal) (r : Rec) : Rec :=
  if (aget r k).isSome then r else aput r k v

/-- The item repair block (lines 675-684, 723-732 and 771-780 of the
source): a record with id 3632 is forced to the empty name; absent
`tags`, `depth`, `colloq`, `plaintext` default to `[]`, `1`, `""` and
`""`.  Reading `item["id"]` raises `KeyError` when absent. -/
def item_normalize (r : Rec) : Except Err Rec :=
  match aget r "id" with
  | none => .error .keyError
  | some idv =>
      .ok (defaultStep "plaintext" (.fStr "")
        (defaultStep "colloq" (.fStr "")
          (defaultStep "depth" (.fInt 1)
            (defaultStep "tags" (.fStrList [])
              (if idv = .fInt 3632 then aput r "name" (.fStr "") else r)))))

/-- Post-processing of the direct single-item fetch (get_item lines
671-685): stamp from the query, then repair. -/
def item_direct_post (q : Query) (r : Rec) : Except Err Rec :=
  match stamp_single q true r with
  | .error e => .error e
  | .ok r1 => item_normalize r1

/-- Per-record post-processing inside `get_item_list` (lines 770-784):
repair first, then stamp with the query's version. -/
def item_list_entry_post (region : String) (ver loc inc : FVal) (r : Rec) :
    Except Err Rec :=
  match item_normalize r with
  | .error e => .error e
  | .ok r1 => .ok (stampRec region ver loc inc r1)

/-- URL of the items list endpoint. -/
def item_list_url (p : Platform) : String :=
  "https://" ++ p.value.toLower ++ ".api.riotgames.com/lol/static-data/v3/items"

/-- URL of a single item fetch. -/
def item_single_url (p : Platform) (id : Int) : String :=
  "https://" ++ p.value.toLower ++ ".api.riotgames.com/lol/static-data/v3/items/"
    ++ toString id

/-- `_validate_get_item_list_query`: same schema as the mastery list
validator. -/
def validate_get_item_list_query (q : Query) : Except Err Query :=
  validate_get_mastery_list_query q

/-- Lines 767-785 of the source: stamp the fetched items payload and
repair-then-stamp every contained record. -/
def build_item_list (q : Query) (p : Platform) (payload : Payload) :
    Except Err Payload :=
  match aget q "locale", aget q "includedData" with
  | some loc, some inc =>
      match qvalToF loc, qvalToF inc with
      | .ok locF, .ok incF =>
          let d1 := aput (aput (aput payload "region" (.tF (.fStr p.region)))
            "locale" (.tF locF)) "includedData" (.tF incF)
          match aget d1 "data" with
          | none => .error .keyError
          | some (.tF _) => .error .typeError
          | some (.tData entries) =>
              match entries with
              | [] => .ok d1
              | _ :: _ =>
                  match aget q "version" with
                  | none => .error .keyError
                  | some ver =>
                      match qvalToF ver with
                      | .error e => .error e
                      | .ok verF =>
                          match entries.mapM (fun kv =>
                            (item_list_entry_post p.region verF locF incF kv.2).map
                              (fun r1 => (kv.1, r1))) with
                          | .error e => .error e
                          | .ok entries2 => .ok (aput d1 "data" (.tData entries2))
      | _, _ => .error .typeError
  | _, _ => .error .keyError

/-- `StaticDataAPI.get_item_list`. -/
def get_item_list (tr : Transport) (st : ApiState) (q0 : Query) :
    Except Err Payload × ApiState :=
  match validate_get_item_list_query q0 with
  | .error e => (.error e, st)
  | .ok q =>
      let ahash := calculate_hash q
      match aget st.itemListCache ahash with
      | some rec => (.ok rec, st)
      | none =>
          match getPlatformV q with
          | .error e => (.error e, st)
          | .ok p =>
              let st1 := st.bump
              match tr (item_list_url p) with
              | .error _ => (.error .notFound, st1)
              | .ok payload =>
                  match build_item_list q p payload with
                  | .error e => (.error e, st1)
                  | .ok rec =>
                      (.ok rec,
                        { st1 with itemListCache := aput st1.itemListCache ahash rec })

/-- `StaticDataAPI.get_item`: the list branch goes through
`single_via_list` (no second repair — the cached list records are
already repaired); the direct branch stamps and then repairs. -/
def get_item (reqById : Bool) (realmV : String) (trList : Transport)
    (trSingle : RecTransport) (st : ApiState) (q0 : Query) :
    Except Err Rec × ApiState :=
  match validate_get_item_query realmV q0 with
  | .error e => (.error e, st)
  | .ok q =>
      if reqById || (aget q "name").isSome then
        single_via_list q (get_item_list trList)
          validate_get_item_list_query true
          (fun s => s.itemListCache)
          (fun s c => { s with itemListCache := c }) st
      else
        match getPlatformV q with
        | .error e => (.error e, st)
        | .ok p =>
            match aget q "id" with
            | some (.qInt i) =>
                let st1 := st.bump
                match trSingle (item_single_url p i) with
                | .error _ => (.error .notFound, st1)
                | .ok data =>
                    match item_direct_post q data with
                    | .error e => (.error e, st1)
                    | .ok d => (.ok d, st1)
            | _ => (.error .keyError, st)

/-- One pull of the `get_many_item` generator (lines 712-733): look up
`str(id)`, stamp (payload version), then repair. -/
def item_many_element (payload : Payload) (q : Query) (id : Int) :
    Except Err Rec :=
  match champ_many_element payload q id with
  | .error e => .error e
  | .ok r => item_normalize r

/-- `StaticDataAPI.get_many_item`. -/
def get_many_item (tr : Transport) (st : ApiState) (q0 : Query) :
    Except Err (List (Except Err Rec)) × ApiState :=
  match validate_get_many_entity_query q0 with
  | .error e => (.error e, st)
  | .ok q =>
      match getPlatformV q with
      | .error e => (.error e, st)
      | .ok p =>
          let st1 := st.bump
          match tr (item_list_url p) with
          | .error _ => (.error .notFound, st1)
          | .ok payload =>
              match aget q "ids" with
              | some (.qIntList ids) =>
                  (.ok (consume_generator (item_many_element payload q) ids), st1)
              | _ => (.error .typeError, st1)

/-!
## Summoner spells (`get_many_summoner_spell`)
-/

/-- URL of the summoner-spells list endpoint. -/
def summoner_spell_list_url (p : Platform) : String :=
  "https://" ++ p.value.toLower
    ++ ".api.riotgames.com/lol/static-data/v3/summoner-spells"

/-- One pull of the `get_many_summoner_spell` generator (lines
998-1009): unlike the champion/mastery/rune/item fan-outs, the lookup
is `data["data"][id]` with the raw id — no `str(...)` conversion. -/
def spell_many_element (payload : Payload) (q : Query) (id : Int) :
    Except Err Rec :=
  match aget payload "data" with
  | none => .error .notFound
  | some (.tF _) => .error .typeError
  | some (.tData entries) =>
      match aget entries (.kInt id) with
      | none => .error .notFound
      | some r =>
          match aget q "platform" with
          | some (.qPlatform p) =>
              match aget payload "version" with
              | none => .error .keyError
              | some (.tData _) => .error .typeError
              | some (.tF pv) =>
                  match aget q "locale", aget q "includedData" with
                  | some loc, some inc =>
                      match qvalToF loc, qvalToF inc with
                      | .ok locF, .ok incF =>
                          .ok (stampRec p.region pv locF incF r)
                      | _, _ => .error .typeError
                  | _, _ => .error .keyError
          | some _ => .error .typeError
          | none => .error .keyError

/-- `StaticDataAPI.get_many_summoner_spell`. -/
def get_many_summoner_spell (tr : Transport) (st : ApiState) (q0 : Query) :
    Except Err (List (Except Err Rec)) × ApiState :=
  match validate_get_many_entity_query q0 with
  | .error e => (.error e, st)
  | .ok q =>
      match getPlatformV q with
      | .error e => (.error e, st)
      | .ok p =>
          let st1 := st.bump
          match tr (summoner_spell_list_url p) with
          | .error _ => (.error .notFound, st1)
          | .ok payload =>
              match aget q "ids" with
              | some (.qIntList ids) =>
                  (.ok (consume_generator (spell_many_element payload q) ids), st1)
              | _ => (.error .typeError, st1)

/-!
## Item normalization rules (C7)
-/

/-- The repair guarantees of the item normalizer, relating the raw
record to the produced record: id 3632 is nameless, and absent
`tags` / `depth` / `colloq` / `plaintext` receive their defaults. -/
def ItemRules (raw out : Rec) : Prop :=
  (aget raw "id" = some (.fInt 3632) → aget out "name" = some (.fStr "")) ∧
  (aget raw "tags" = none → aget out "tags" = some (.fStrList [])) ∧
  (aget raw "depth" = none → aget out "depth" = some (.fInt 1)) ∧
  (aget raw "colloq" = none → aget out "colloq" = some (.fStr "")) ∧
  (aget raw "plaintext" = none → aget out "plaintext" = some (.fStr ""))

theorem aget_defaultStep_ne (k' : String) (v : FVal) (r : Rec) (k : String)
    (h : k' ≠ k) : aget (defaultStep k' v r) k = aget r k := by
  unfold defaultStep
  by_cases hc : (aget r k').isSome
  · rw [if_pos hc]
  · rw [if_neg hc, aget_aput_ne _ _ _ _ h]

theorem aget_defaultStep_filled (k' : String) (v : FVal) (r : Rec)
    (hmiss : aget r k' = none) :
    aget (defaultStep k' v r) k' = some v := by
  unfold defaultStep
  rw [hmiss]
  simp only [Option.isSome_none, Bool.false_eq_true, if_false]
  exact aget_aput_self _ _ _

theorem item_normalize_spec (r r' : Rec) (h : item_normalize r = .ok r') :
    ItemRules r r' := by
  unfold item_normalize at h
  cases hid : aget r "id" with
  | none => rw [hid] at h; exact absurd h (by simp)
  | some idv =>
      rw [hid] at h
      simp only [Except.ok.injEq] at h
      subst h
      have hr1 : ∀ k, k ≠ "name" →
          aget (if idv = FVal.fInt 3632 then aput r "name" (FVal.fStr "") else r) k
            = aget r k := by
        intro k hk
        by_cases hc : idv = FVal.fInt 3632
        · rw [if_pos hc, aget_aput_ne _ _ _ _ (Ne.symm hk)]
        · rw [if_neg hc]
      have hname : aget r "id" = some (FVal.fInt 3632) →
          aget (if idv = FVal.fInt 3632 then aput r "name" (FVal.fStr "") else r)
            "name" = some (FVal.fStr "") := by
        intro h3632
        have hidv : idv = FVal.fInt 3632 := by
          rw [hid] at h3632
          injection h3632
        rw [if_pos hidv, aget_aput_self]
      generalize hR1 : (if idv = FVal.fInt 3632 then aput r "name" (FVal.fStr "")
        else r) = R1 at hr1 hname
      refine ⟨?_, ?_, ?_, ?_, ?_⟩
      · intro h3632
        rw [aget_defaultStep_ne "plaintext" _ _ "name" (by decide),
          aget_defaultStep_ne "colloq" _ _ "name" (by decide),
          aget_defaultStep_ne "depth" _ _ "name" (by decide),
          aget_defaultStep_ne "tags" _ _ "name" (by decide)]
        exact hname h3632
      · intro htags
        rw [aget_defaultStep_ne "plaintext" _ _ "tags" (by decide),
          aget_defaultStep_ne "colloq" _ _ "tags" (by decide),
          aget_defaultStep_ne "depth" _ _ "tags" (by decide)]
        exact aget_defaultStep_filled "tags" _ R1
          ((hr1 "tags" (by decide)).trans htags)
      · intro hdepth
        rw [aget_defaultStep_ne "plaintext" _ _ "depth" (by decide),
          aget_defaultStep_ne "colloq" _ _ "depth" (by decide)]
        have hmiss : aget (defaultStep "tags" (FVal.fStrList []) R1) "depth"
            = none := by
          rw [aget_defaultStep_ne "tags" _ _ "depth" (by decide),
            hr1 "depth" (by decide)]
          exact hdepth
        exact aget_defaultStep_filled "depth" _ _ hmiss
      · intro hcolloq
        rw [aget_defaultStep_ne "plaintext" _ _ "colloq" (by decide)]
        have hmiss : aget (defaultStep "depth" (FVal.fInt 1)
            (defaultStep "tags" (FVal.fStrList []) R1)) "colloq" = none := by
          rw [aget_defaultStep_ne "depth" _ _ "colloq" (by decide),
            aget_defaultStep_ne "tags" _ _ "colloq" (by decide),
            hr1 "colloq" (by decide)]
          exact hcolloq
        exact aget_defaultStep_filled "colloq" _ _ hmiss
      · intro hplain
        have hmiss : aget (defaultStep "colloq" (FVal.fStr "")
            (defaultStep "depth" (FVal.fInt 1)
              (defaultStep "tags" (FVal.fStrList []) R1))) "plaintext" = none := by
          rw [aget_defaultStep_ne "colloq" _ _ "plaintext" (by decide),
            aget_defaultStep_ne "depth" _ _ "plaintext" (by decide),
            aget_defaultStep_ne "tags" _ _ "plaintext" (by decide),
            hr1 "plaintext" (by decide)]
          exact hplain
        exact aget_defaultStep_filled "plaintext" _ _ hmiss

theorem stamp_single_inv (q : Query) (r r' : Rec)
    (h : stamp_single q true r = .ok r') :
    ∃ reg verF locF incF, r' = stampRec reg verF locF incF r := by
  unfold stamp_single at h
  cases hp : stamp_params q true with
  | error e => rw [hp] at h; exact absurd h (by simp)
  | ok prm =>
      simp only [hp, Except.ok.injEq] at h
      exact ⟨prm.1, prm.2.1, prm.2.2.1, prm.2.2.2, h.symm⟩

theorem itemRules_raw_stamp (reg : String) (v l i : FVal) (r out : Rec)
    (h : ItemRules (stampRec reg v l i r) out) : ItemRules r out := by
  obtain ⟨h1, h2, h3, h4, h5⟩ := h
  refine ⟨?_, ?_, ?_, ?_, ?_⟩
  · intro hc
    exact h1 (by rw [stampRec_other _ _ _ _ _ _ (by decide) (by decide)
      (by decide) (by decide)]; exact hc)
  · intro hc
    exact h2 (by rw [stampRec_other _ _ _ _ _ _ (by decide) (by decide)
      (by decide) (by decide)]; exact hc)
  · intro hc
    exact h3 (by rw [stampRec_other _ _ _ _ _ _ (by decide) (by decide)
      (by decide) (by decide)]; exact hc)
  · intro hc
    exact h4 (by rw [stampRec_other _ _ _ _ _ _ (by decide) (by decide)
      (by decide) (by decide)]; exact hc)
  · intro hc
    exact h5 (by rw [stampRec_other _ _ _ _ _ _ (by decide) (by decide)
      (by decide) (by decide)]; exact hc)

theorem itemRules_out_stamp (reg : String) (v l i : FVal) (raw out : Rec)
    (h : ItemRules raw out) : ItemRules raw (stampRec reg v l i out) := by
  obtain ⟨h1, h2, h3, h4, h5⟩ := h
  refine ⟨?_, ?_, ?_, ?_, ?_⟩
  · intro hc
    rw [stampRec_other _ _ _ _ _ _ (by decide) (by decide) (by decide) (by decide)]
    exact h1 hc
  · intro hc
    rw [stampRec_other _ _ _ _ _ _ (by decide) (by decide) (by decide) (by decide)]
    exact h2 hc
  · intro hc
    rw [stampRec_other _ _ _ _ _ _ (by decide) (by decide) (by decide) (by decide)]
    exact h3 hc
  · intro hc
    rw [stampRec_other _ _ _ _ _ _ (by decide) (by decide) (by decide) (by decide)]
    exact h4 hc
  · intro hc
    rw [stampRec_other _ _ _ _ _ _ (by decide) (by decide) (by decide) (by decide)]
    exact h5 hc

/-- C7: on every path that produces an item record — the direct
single fetch (stamp then repair), a `get_item_list` record (repair
then stamp), a `get_many_item` element (stamp then repair), and a
single get served through the list (a repaired list record stamped
once more) — an id-3632 record ends with the empty name, and absent
tags/depth/colloq/plaintext end with their defaults. -/
theorem item_nameless_and_defaults (q : Query) (region : String)
    (ver loc inc : FVal) (p2 : Platform) (ver2 loc2 : String)
    (inc2 : List String) (ids : List Int) (id : Int)
    (payload : Payload) (entries : List (PyKey × Rec)) (pv : FVal)
    (r r0 rd rl rm rs : Rec) :
    ((item_direct_post q r = .ok rd) → ItemRules r rd) ∧
    ((item_list_entry_post region ver loc inc r = .ok rl) → ItemRules r rl) ∧
    ((aget payload "data" = some (.tData entries)) →
      (aget payload "version" = some (.tF pv)) →
      (aget entries (.kStr (toString id)) = some r0) →
      (item_many_element payload (mkManyQuery p2 ver2 loc2 inc2 ids) id = .ok rm) →
      ItemRules r0 rm) ∧
    ((item_list_entry_post region ver loc inc r = .ok rl) →
      (stamp_single q true rl = .ok rs) → ItemRules r rs) := by
  have hlist : (item_list_entry_post region ver loc inc r = .ok rl) →
      ItemRules r rl := by
    intro h
    unfold item_list_entry_post at h
    cases hn : item_normalize r with
    | error e => rw [hn] at h; exact absurd h (by simp)
    | ok r1 =>
        simp only [hn, Except.ok.injEq] at h
        subst h
        exact itemRules_out_stamp _ _ _ _ _ _ (item_normalize_spec r r1 hn)
  refine ⟨?_, hlist, ?_, ?_⟩
  · intro h
    unfold item_direct_post at h
    cases hs : stamp_single q true r with
    | error e => rw [hs] at h; exact absurd h (by simp)
    | ok r1 =>
        rw [hs] at h
        obtain ⟨reg, verF, locF, incF, hshape⟩ := stamp_single_inv q r r1 hs
        subst hshape
        exact itemRules_raw_stamp _ _ _ _ _ _ (item_normalize_spec _ _ h)
  · intro hdata hpv hfound hm
    have hch := champ_many_element_found payload p2 ver2 loc2 inc2 ids id
      entries pv r0 hdata hpv hfound
    unfold item_many_element at hm
    rw [hch] at hm
    simp only at hm
    exact itemRules_raw_stamp _ _ _ _ _ _ (item_normalize_spec _ _ hm)
  · intro h1 h2
    obtain ⟨reg, verF, locF, incF, hshape⟩ := stamp_single_inv q rl rs h2
    subst hshape
    exact itemRules_out_stamp _ _ _ _ _ _ (hlist h1)

/-- An item record with id 3632, a junk name and no
tags/depth/colloq/plaintext. -/
def item3632 : Rec := [("id", .fInt 3632), ("name", .fStr "junk")]

/-- A single-item query for id 3632 with all context fields
explicit. -/
def itemQ : Query := mkChampionQuery platNA "7.9.1" "en_US" ["all"] 3632

/-- The concrete direct-path result for `item3632`. -/
def rdC : Rec := (item_direct_post itemQ item3632).toOption.get!

/-- The concrete list-path record for `item3632`. -/
def rlC : Rec :=
  (item_list_entry_post "NA" (.fStr "7.9.1") (.fStr "en_US") (.fSet ["all"])
    item3632).toOption.get!

/-- The concrete single-get-via-list result for `item3632`. -/
def rsC : Rec := (stamp_single itemQ true rlC).toOption.get!

/-- A concrete items payload holding only item 3632 (under its string
key). -/
def itemPayload : Payload :=
  [("version", .tF (.fStr "7.9.1")), ("data", .tData [(.kStr "3632", item3632)])]

/-- The concrete `get_many_item` element for id 3632. -/
def rmC : Rec :=
  (item_many_element itemPayload (mkManyQuery platNA "7.9.1" "en_US" ["all"] [3632])
    3632).toOption.get!

/-- Witness for C7 on all four paths at the concrete nameless item. -/
theorem item_nameless_and_defaults_witness :
    ItemRules item3632 rdC ∧ ItemRules item3632 rlC ∧
      ItemRules item3632 rmC ∧ ItemRules item3632 rsC := by
  obtain ⟨h1, h2, h3, h4⟩ := item_nameless_and_defaults itemQ "NA"
    (.fStr "7.9.1") (.fStr "en_US") (.fSet ["all"]) platNA "7.9.1" "en_US"
    ["all"] [3632] 3632 itemPayload [(.kStr "3632", item3632)] (.fStr "7.9.1")
    item3632 item3632 rdC rlC rmC rsC
  exact ⟨h1 (by decide), h2 (by decide),
    h3 (by decide) (by decide) (by decide) (by decide),
    h4 (by decide) (by decide)⟩

/-!
## Summoner-spell fan-out key mismatch (C10)
-/

/-- C10: the summoner-spell fan-out looks ids up with the raw integer
key, so a record stored only under the id's string form — as the
champion/mastery/rune/item fan-outs expect, looking up `str(id)` —
yields `NotFound` for that element even though the record exists and
the champion-style lookup of the same payload succeeds. -/
theorem get_many_summoner_spell_int_key (tr : Transport) (st : ApiState)
    (p : Platform) (ver loc : String) (inc : List String) (id : Int)
    (payload : Payload) (entries : List (PyKey × Rec)) (rec0 : Rec) (pv : FVal)
    (htr : tr (summoner_spell_list_url p) = .ok payload)
    (hdata : aget payload "data" = some (.tData entries))
    (hver : aget payload "version" = some (.tF pv))
    (hstr : aget entries (.kStr (toString id)) = some rec0)
    (hint : aget entries (.kInt id) = none) :
    get_many_summoner_spell tr st (mkManyQuery p ver loc inc [id])
        = (.ok [.error .notFound], st.bump) ∧
      champ_many_element payload (mkManyQuery p ver loc inc [id]) id
        = .ok (stampRec p.region pv (.fStr loc) (.fSet inc) rec0) := by
  constructor
  · have hel : spell_many_element payload (mkManyQuery p ver loc inc [id]) id
        = .error .notFound := by
      simp only [spell_many_element, hdata, hint]
    have hplat : getPlatformV (mkManyQuery p ver loc inc [id]) = .ok p := rfl
    have hids : aget (mkManyQuery p ver loc inc [id]) "ids"
        = some (.qIntList [id]) := rfl
    simp only [get_many_summoner_spell, validate_mkManyQuery, hplat, htr, hids,
      consume_generator, hel]
  · exact champ_many_element_found payload p ver loc inc [id] id entries pv
      rec0 hdata hver hstr

/-- A summoner-spell record. -/
def flashRec : Rec := [("id", .fInt 4), ("name", .fStr "Flash")]

/-- A concrete summoner-spells payload keyed by the string form of the
id, as the service returns it. -/
def spellPayload : Payload :=
  [("version", .tF (.fStr "7.9.1")), ("data", .tData [(.kStr "4", flashRec)])]

/-- A transport that always serves `spellPayload`. -/
def trSpell : Transport := fun _ => .ok spellPayload

/-- Witness for C10 at the concrete payload. -/
theorem get_many_summoner_spell_int_key_witness :
    get_many_summoner_spell trSpell st0 (mkManyQuery platNA "7.9.1" "en_US" ["all"] [4])
        = (.ok [.error .notFound], st0.bump) ∧
      champ_many_element spellPayload (mkManyQuery platNA "7.9.1" "en_US" ["all"] [4]) 4
        = .ok (stampRec platNA.region (.fStr "7.9.1") (.fStr "en_US")
            (.fSet ["all"]) flashRec) :=
  get_many_summoner_spell_int_key trSpell st0 platNA "7.9.1" "en_US" ["all"] 4
    spellPayload [(.kStr "4", flashRec)] flashRec (.fStr "7.9.1")
    rfl (by decide) (by decide) (by decide) (by decide)

end Cassiopeia
